import Mathlib

/-!
Verification of the icon-processing pipeline of the elemental-svg repository
(`scripts/process-icons.js` and `scripts/upload-icons.js`).

JavaScript strings are modelled as Lean `String`s (sequences of characters);
string-valued JS object literals used as dictionaries are modelled as
association lists.  A property read `obj[key]` on a plain object consults
the own properties first and then the inherited members of
`Object.prototype` (`constructor`, `toString`, ...), so dictionary reads go
through `jsGet` below, whose result (`JsVal`) distinguishes an own string
value from an inherited member.  All definitions are translated from the
source scripts; each definition carries the name of the source function or
constant it embeds.
-/

set_option maxRecDepth 4096

namespace ElementalSvg

/- ── JS string primitives ─────────────────────────────────────────────
`replFirstL pat s` removes the first occurrence of `pat` from `s`,
which is what `s.replace(pat, '')` does for a plain-string pattern.
`isInfixL pat s` decides whether `pat` occurs contiguously in `s`
(`s.includes(pat)`). -/

def replFirstL (pat : List Char) : List Char → List Char
  | [] => []
  | c :: rest =>
    if pat.isPrefixOf (c :: rest) then (c :: rest).drop pat.length
    else c :: replFirstL pat rest

def isInfixL (pat : List Char) : List Char → Bool
  | [] => pat.isEmpty
  | c :: rest => pat.isPrefixOf (c :: rest) || isInfixL pat rest

/-- `s.replace(pat, '')` for a plain-string `pat` (first occurrence only). -/
def jsReplaceFirst (s pat : String) : String := ⟨replFirstL pat.data s.data⟩

/-- `s.includes(sub)` -/
def jsIncludes (s sub : String) : Bool := isInfixL sub.data s.data

/-- `pat` has no nonempty proper border (no string that is both a proper
prefix and a proper suffix of `pat`).  All five style suffixes satisfy it. -/
def noBorder (pat : List Char) : Bool :=
  (List.range pat.length).all (fun k => k == 0 || pat.take k != pat.drop (pat.length - k))

/-- `s.startsWith(pre)` -/
def jsStartsWith (s pre : String) : Bool := pre.data.isPrefixOf s.data

/-- `s.endsWith(suffix)` -/
def jsEndsWith (s suffix : String) : Bool := suffix.data.isSuffixOf s.data

/-- `s.replace(pat-anchored-at-end, '')`: strip `pat` from the end of `s`
if present (anchored regex replacement, as used for the style suffixes). -/
def stripAnchored (s pat : String) : String :=
  if pat.data.isSuffixOf s.data then ⟨s.data.take (s.data.length - pat.data.length)⟩ else s

/-- `keyword.replace(dash-anchored-at-end, '')`: drop one trailing hyphen. -/
def stripTrailingDash (kw : String) : String :=
  if jsEndsWith kw "-" then ⟨kw.data.dropLast⟩ else kw

/-- `s.toLowerCase()` (ASCII case folding suffices for this data). -/
def jsToLower (s : String) : String := ⟨s.data.map Char.toLower⟩

/- ── JS plain-object property access ──────────────────────────────────
The scripts use object literals (and `JSON.parse` results) as dictionaries
and read them with `obj[key]`.  Such a read does not stop at the object's
own properties: when `key` is absent it continues up the prototype chain
and finds the inherited members of `Object.prototype`, all of which are
truthy non-string values (built-in functions, and for `__proto__` the
accessor returning the prototype object).  `JsVal` is the value space of
these reads: an own string entry, or an inherited `Object.prototype`
member identified by its key. -/

/-- The member keys inherited from `Object.prototype` by every plain
object. -/
def OBJ_PROTO_KEYS : List String :=
  ["constructor", "hasOwnProperty", "isPrototypeOf", "propertyIsEnumerable",
   "toLocaleString", "toString", "valueOf", "__defineGetter__",
   "__defineSetter__", "__lookupGetter__", "__lookupSetter__", "__proto__"]

/-- A value read out of a string-valued JS dictionary: an own string entry,
or the inherited `Object.prototype` member reached under key `m`. -/
inductive JsVal where
  | str (s : String)
  | inherited (m : String)
deriving DecidableEq, Repr

/-- A plain string used where a `JsVal` is expected denotes that string
value. -/
instance : Coe String JsVal := ⟨JsVal.str⟩

/-- JS truthiness of a read dictionary value: the empty string is falsy,
every inherited `Object.prototype` member (a function, or the prototype
object for `__proto__`) is truthy. -/
def jsTruthy : JsVal → Bool
  | JsVal.str s => !(s == "")
  | JsVal.inherited _ => true

/-- The string JS coerces a `JsVal` to when it is used as a property key
(`String(v)`): a string coerces to itself; `Object.prototype.constructor`
is the `Object` function, printing as `function Object() { [native code] }`;
`obj.__proto__` is the prototype object, printing as `[object Object]`; the
other inherited members are built-in functions named after their key. -/
def jsKeyStr : JsVal → String
  | JsVal.str s => s
  | JsVal.inherited m =>
    if m = "constructor" then "function Object() { [native code] }"
    else if m = "__proto__" then "[object Object]"
    else "function " ++ m ++ "() { [native code] }"

/-- `obj[k]` on a plain string-valued dictionary: the own entry when
present, else the inherited `Object.prototype` member when `k` is one of
its keys, else `undefined` (`none`). -/
def jsGet (m : List (String × String)) (k : String) : Option JsVal :=
  match m.lookup k with
  | some v => some (JsVal.str v)
  | none => if k ∈ OBJ_PROTO_KEYS then some (JsVal.inherited k) else none

/-- `obj[k]` where the key expression is itself a read value: the key is
coerced to a string first. -/
def jsGetV (m : List (String × String)) (k : JsVal) : Option JsVal :=
  jsGet m (jsKeyStr k)

/-- The body of a `if (obj[k]) { x = obj[k]; ... }` style probe: the read
value when it is truthy, else nothing. -/
def jsGetTruthy (m : List (String × String)) (k : String) : Option JsVal :=
  match jsGet m k with
  | some v => if jsTruthy v then some v else none
  | none => none

/-- JS `x || y` where `x` is a dictionary read (absent and falsy both fall
through to `y`). -/
def jsValOr (o : Option JsVal) (y : JsVal) : JsVal :=
  match o with
  | some v => if jsTruthy v then v else y
  | none => y

/-- Whether a read value is a string (survives `JSON.stringify`, which
omits function-valued fields). -/
def jsValIsStr : JsVal → Bool
  | JsVal.str _ => true
  | JsVal.inherited _ => false

/- ── Category tables (process-icons.js) ──────────────────────────────── -/

structure Category where
  id : String
  label : String
deriving DecidableEq, Repr

/-- `CATEGORIES`: the twenty fixed category ids with display labels. -/
def CATEGORIES : List Category := [
  ⟨"arrows", "Arrows & Chevrons"⟩,
  ⟨"navigation", "Navigation & Layout"⟩,
  ⟨"datetime", "Date & Time"⟩,
  ⟨"files", "Files & Folders"⟩,
  ⟨"communication", "Communication"⟩,
  ⟨"media", "Media & Audio"⟩,
  ⟨"people", "People & Users"⟩,
  ⟨"commerce", "Commerce & Finance"⟩,
  ⟨"security", "Security & Privacy"⟩,
  ⟨"controls", "Settings & Controls"⟩,
  ⟨"infrastructure", "Infrastructure & Data"⟩,
  ⟨"actions", "Actions & Favorites"⟩,
  ⟨"notifications", "Notifications & Alerts"⟩,
  ⟨"location", "Location & Maps"⟩,
  ⟨"visual", "Images & Video"⟩,
  ⟨"development", "Development & Code"⟩,
  ⟨"weather", "Weather & Nature"⟩,
  ⟨"shapes", "Shapes & Symbols"⟩,
  ⟨"text", "Text & Typography"⟩,
  ⟨"misc", "Miscellaneous"⟩]

/-- The values the pipeline can store in an icon's `category` field: one of
the twenty category id strings, or an inherited `Object.prototype` member
picked up by a dictionary read whose key collided with a member name. -/
def GoodCat (v : JsVal) : Prop :=
  (∃ c ∈ CATEGORIES.map (fun cat => cat.id), v = JsVal.str c) ∨
  (∃ m ∈ OBJ_PROTO_KEYS, v = JsVal.inherited m)

/-- `CATEGORY_KEYWORDS`: ordered keyword table; JS object key order is
insertion order, so the list order below is the declaration order. -/
def CATEGORY_KEYWORDS : List (String × List String) := [
  ("arrows", [
    "arrow", "chevron", "caret", "move-", "corner-", "maximize", "minimize",
    "expand", "shrink", "fold", "unfold", "between", "iterate", "repeat",
    "undo", "redo", "rotate", "flip", "refresh", "replace", "swap",
    "merge", "split", "return", "forward", "backward"]),
  ("navigation", [
    "home", "house", "menu", "sidebar", "layout", "grid", "list", "panel",
    "columns", "rows", "table", "kanban", "dock", "app-window", "panel",
    "navigation", "breadcrumb", "pagination", "tab", "gallery", "scroll",
    "separator", "grip", "between-", "ellipsis", "more-horizontal",
    "more-vertical", "anchor", "loader", "layers", "form-input"]),
  ("datetime", [
    "calendar", "clock", "timer", "watch", "hourglass", "alarm",
    "schedule", "stopwatch", "history", "time"]),
  ("files", [
    "file", "folder", "document", "copy", "clipboard", "paste",
    "notebook", "book", "archive", "package", "box", "save",
    "download", "upload", "import", "export", "attachment"]),
  ("communication", [
    "mail", "message", "phone", "chat", "send", "inbox", "contact",
    "at-sign", "reply", "voicemail", "satellite", "radio", "rss",
    "share", "megaphone", "speech", "conversation", "comment"]),
  ("media", [
    "play", "pause", "stop", "volume", "music", "mic", "headphone",
    "speaker", "audio", "podcast", "disc", "vinyl", "guitar",
    "drum", "piano", "amp", "equalizer", "fast-forward", "rewind",
    "skip", "shuffle", "repeat", "cassette", "gamepad", "joystick",
    "chess"]),
  ("people", [
    "user", "users", "person", "baby", "accessibility", "hand",
    "thumbs", "brain", "head", "footprints", "figure", "body",
    "bone", "ear", "eye-", "glasses", "smile", "frown", "meh",
    "angry", "annoyed", "laugh", "drama"]),
  ("commerce", [
    "cart", "bag", "credit-card", "dollar", "wallet", "receipt",
    "banknote", "coin", "currency", "bitcoin", "store", "shop",
    "tag", "barcode", "price", "percent", "badge-", "ticket",
    "gift", "piggy", "landmark", "building", "calculator", "tally",
    "scale", "school"]),
  ("security", [
    "lock", "key", "shield", "scan", "fingerprint", "guard",
    "keyhole", "unlock", "vault"]),
  ("controls", [
    "settings", "sliders", "toggle", "tool", "wrench", "hammer",
    "screwdriver", "nut", "bolt", "cog", "gear", "filter",
    "sort", "adjust", "configure", "switch", "power",
    "plug", "socket", "cable", "usb", "bluetooth", "wifi", "nfc",
    "signal", "antenna", "gauge", "touchpad", "fan"]),
  ("infrastructure", [
    "cloud", "database", "server", "hard-drive", "cpu", "memory",
    "network", "container", "blocks", "workflow", "circuit",
    "binary", "ethernet", "router", "monitor", "screen", "laptop",
    "tablet", "smartphone", "desktop", "printer", "keyboard",
    "mouse", "computer", "display", "chart", "bar-chart", "line-chart",
    "area-chart", "pie-chart", "gantt-chart", "scatter-chart",
    "candlestick-chart", "trending", "tv"]),
  ("actions", [
    "heart", "star", "bookmark", "thumb", "flag", "pin",
    "like", "check", "plus", "minus", "x", "close", "delete",
    "trash", "remove", "add", "create", "edit", "pencil", "pen",
    "eraser", "scissors", "crop", "cut", "zap", "sparkle",
    "wand", "magic", "search", "zoom", "eye", "lightbulb", "lasso",
    "link", "rocket", "verified", "medal", "ribbon", "inspect",
    "grab", "crosshair", "cross"]),
  ("notifications", [
    "alert", "bell", "info", "warning", "siren", "megaphone",
    "help-circle", "badge", "notification", "announce", "circle-alert",
    "triangle-alert", "octagon-alert"]),
  ("location", [
    "map", "pin", "globe", "compass", "navigation", "route",
    "locate", "gps", "waypoint", "milestone", "sign-post", "signpost",
    "mountain", "tent", "tree", "flower", "leaf",
    "train", "bus", "car", "plane", "bike", "motorbike", "scooter",
    "tractor", "tram", "ship", "sail", "rail", "fuel", "parking",
    "ferry", "truck"]),
  ("visual", [
    "image", "camera", "video", "film", "photo", "picture",
    "aperture", "focus", "frame", "gallery", "canvas",
    "projector", "presentation", "screenshot",
    "paintbrush", "paint", "palette", "spray-can", "sticker",
    "drone", "feather"]),
  ("development", [
    "code", "terminal", "git", "bug", "bracket", "braces",
    "regex", "variable", "function", "webhook", "api",
    "component", "puzzle", "block", "atom", "test-tube"]),
  ("weather", [
    "sun", "moon", "cloud-rain", "cloud-snow", "cloud-lightning",
    "cloud-drizzle", "cloud-hail", "cloud-fog", "wind", "rainbow",
    "snowflake", "thermometer", "umbrella", "tornado", "sunrise",
    "sunset", "eclipse", "droplet", "wave", "flame", "fire",
    "haze", "shrub"]),
  ("shapes", [
    "circle", "square", "triangle", "hexagon", "octagon", "pentagon",
    "diamond", "rectangle", "oval", "cylinder", "cone", "cube",
    "pyramid", "sphere", "torus", "shape", "infinity", "sigma",
    "slash", "scaling", "origami"]),
  ("text", [
    "type", "text", "bold", "italic", "font", "underline",
    "strikethrough", "heading", "paragraph", "quote", "list",
    "indent", "align-", "subscript", "superscript", "case",
    "spell", "whole-word", "pilcrow", "baseline", "wrap",
    "a-arrow", "a-large", "remove-formatting", "languages",
    "subtitles", "outdent"])]

/-- `NAME_OVERRIDES`: exact-name overrides, checked before the keyword scan. -/
def NAME_OVERRIDES : List (String × String) := [
  ("cloud-download", "infrastructure"),
  ("cloud-upload", "infrastructure"),
  ("cloud-off", "infrastructure"),
  ("cloud-cog", "infrastructure"),
  ("eye", "actions"),
  ("eye-off", "actions"),
  ("scan-face", "security"),
  ("scan-line", "security"),
  ("scan-barcode", "commerce"),
  ("scan-text", "text"),
  ("scan-search", "actions"),
  ("scan-eye", "security"),
  ("navigation", "location"),
  ("navigation-2", "location"),
  ("navigation-off", "location"),
  ("share", "communication"),
  ("share-2", "communication"),
  ("pin", "location"),
  ("pin-off", "location"),
  ("monitor", "infrastructure"),
  ("monitor-check", "infrastructure"),
  ("monitor-dot", "infrastructure"),
  ("monitor-down", "infrastructure"),
  ("monitor-off", "infrastructure"),
  ("monitor-pause", "infrastructure"),
  ("monitor-play", "infrastructure"),
  ("monitor-smartphone", "infrastructure"),
  ("monitor-speaker", "infrastructure"),
  ("monitor-stop", "infrastructure"),
  ("monitor-up", "infrastructure"),
  ("monitor-x", "infrastructure"),
  ("cloud", "infrastructure"),
  ("box", "files"),
  ("boxes", "files"),
  ("flag", "actions"),
  ("flag-off", "actions"),
  ("flag-triangle-left", "actions"),
  ("flag-triangle-right", "actions")]

/-- `TABLER_CATEGORY_MAP`: Tabler's 41 categories mapped to the local 20. -/
def TABLER_CATEGORY_MAP : List (String × String) := [
  ("Animals", "misc"), ("Arrows", "arrows"), ("Badges", "actions"),
  ("Brand", "misc"), ("Buildings", "commerce"), ("Charts", "infrastructure"),
  ("Communication", "communication"), ("Computers", "infrastructure"),
  ("Currencies", "commerce"), ("Database", "infrastructure"),
  ("Design", "visual"), ("Development", "development"),
  ("Devices", "infrastructure"), ("Document", "files"),
  ("E-commerce", "commerce"), ("Electrical", "controls"),
  ("Extensions", "development"), ("Food", "misc"), ("Games", "misc"),
  ("Gender", "people"), ("Gestures", "people"), ("Health", "people"),
  ("Laundry", "misc"), ("Letters", "text"), ("Logic", "development"),
  ("Map", "location"), ("Math", "shapes"), ("Media", "media"),
  ("Mood", "people"), ("Nature", "weather"), ("Numbers", "text"),
  ("Photography", "visual"), ("Shapes", "shapes"), ("Sport", "misc"),
  ("Symbols", "shapes"), ("System", "controls"), ("Text", "text"),
  ("Vehicles", "location"), ("Version control", "development"),
  ("Weather", "weather"), ("Zodiac", "misc")]

/-- `PHOSPHOR_CATEGORY_MAP`: Phosphor's 18 categories mapped to the local 20. -/
def PHOSPHOR_CATEGORY_MAP : List (String × String) := [
  ("arrows", "arrows"), ("brands", "misc"), ("commerce", "commerce"),
  ("communications", "communication"), ("design", "visual"),
  ("editor", "text"), ("finances", "commerce"), ("games", "misc"),
  ("health & wellness", "people"), ("maps & travel", "location"),
  ("media", "media"), ("nature", "weather"), ("objects", "misc"),
  ("office", "files"), ("people", "people"), ("system", "controls"),
  ("technology & development", "development"), ("weather", "weather")]

/-- `REMIX_CATEGORY_MAP`: Remix Icon's 20 categories mapped to the local 20. -/
def REMIX_CATEGORY_MAP : List (String × String) := [
  ("Arrows", "arrows"), ("Buildings", "commerce"), ("Business", "commerce"),
  ("Communication", "communication"), ("Design", "visual"),
  ("Development", "development"), ("Device", "infrastructure"),
  ("Document", "files"), ("Editor", "text"), ("Finance", "commerce"),
  ("Food", "misc"), ("Game & Sports", "misc"), ("Health & Medical", "people"),
  ("Logos", "misc"), ("Map", "location"), ("Media", "media"),
  ("Others", "misc"), ("System", "controls"), ("User & Faces", "people"),
  ("Weather", "weather")]

/-- `MDI_CATEGORY_MAP`: MDI's 61 tag categories mapped to the local 20. -/
def MDI_CATEGORY_MAP : List (String × String) := [
  ("Account / User", "people"), ("Agriculture", "misc"),
  ("Alert / Error", "notifications"), ("Alpha / Numeric", "text"),
  ("Animal", "misc"), ("Arrange", "navigation"), ("Arrow", "arrows"),
  ("Audio", "media"), ("Automotive", "location"), ("Banking", "commerce"),
  ("Battery", "infrastructure"), ("Brand / Logo", "misc"),
  ("Cellphone / Phone", "infrastructure"), ("Clothing", "misc"),
  ("Cloud", "infrastructure"), ("Color", "visual"), ("Currency", "commerce"),
  ("Database", "infrastructure"), ("Date / Time", "datetime"),
  ("Developer / Languages", "development"), ("Device / Tech", "infrastructure"),
  ("Drawing / Art", "visual"), ("Edit / Modify", "actions"),
  ("Emoji", "people"), ("Files / Folders", "files"),
  ("Food / Drink", "misc"), ("Form", "controls"), ("Gaming / RPG", "misc"),
  ("Geographic Information System", "location"), ("Hardware / Tools", "controls"),
  ("Health / Beauty", "people"), ("Holiday", "misc"),
  ("Home Automation", "controls"), ("Lock", "security"), ("Math", "shapes"),
  ("Medical / Hospital", "people"), ("Music", "media"), ("Nature", "weather"),
  ("Navigation", "navigation"), ("Notification", "notifications"),
  ("People / Family", "people"), ("Photography", "visual"),
  ("Places", "location"), ("Printer", "infrastructure"), ("Religion", "misc"),
  ("Science", "misc"), ("Settings", "controls"), ("Shape", "shapes"),
  ("Shopping", "commerce"), ("Social Media", "communication"),
  ("Sport", "misc"), ("Text / Content / Format", "text"),
  ("Tooltip", "notifications"), ("Transportation + Flying", "location"),
  ("Transportation + Other", "location"), ("Transportation + Road", "location"),
  ("Transportation + Water", "location"), ("Vector", "visual"),
  ("Video / Movie", "visual"), ("View", "actions"), ("Weather", "weather")]

/-- `ICONPARK_CATEGORY_MAP`: IconPark's 39 categories mapped to the local 20. -/
def ICONPARK_CATEGORY_MAP : List (String × String) := [
  ("Abstract", "shapes"), ("Animals", "misc"), ("Arrows", "arrows"),
  ("Baby", "people"), ("Base", "controls"), ("Brand", "misc"),
  ("Build", "commerce"), ("Character", "text"), ("Charts", "infrastructure"),
  ("Clothes", "misc"), ("Communicate", "communication"),
  ("Components", "development"), ("Connect", "infrastructure"),
  ("Constellation", "misc"), ("Datas", "infrastructure"), ("Edit", "actions"),
  ("Emoji", "people"), ("Energy", "controls"), ("Foods", "misc"),
  ("Game", "misc"), ("Graphics", "visual"), ("Hands", "people"),
  ("Hardware", "infrastructure"), ("Health", "people"),
  ("Industry", "commerce"), ("Life", "misc"), ("Makeups", "misc"),
  ("Measurement", "controls"), ("Money", "commerce"), ("Music", "media"),
  ("Office", "files"), ("Operate", "actions"), ("Others", "misc"),
  ("Peoples", "people"), ("Safe", "security"), ("Sports", "misc"),
  ("Time", "datetime"), ("Travel", "location"), ("Weather", "weather")]

/- ── The categorizer (`categorizeByKeywords`) ───────────────────────── -/

/-- One keyword test of the name scan:
`name.includes(keyword) || name.startsWith(keyword-without-trailing-dash)`. -/
def nameMatches (name kw : String) : Bool :=
  jsIncludes name kw || jsStartsWith name (stripTrailingDash kw)

/-- One keyword test of the tag scan:
`String(tag).toLowerCase().includes(cleanKeyword)`. -/
def tagMatches (kw : String) (tags : List String) : Bool :=
  tags.any (fun tag => jsIncludes (jsToLower tag) (stripTrailingDash kw))

/-- Steps 2 and 3 of `categorizeByKeywords`: the keyword scan over the
name, then over the tags, then the `misc` default. -/
def categorizeKeywordScan (name : String) (tags : Option (List String)) : String :=
  match CATEGORY_KEYWORDS.findSome?
      (fun p => if p.2.any (fun kw => nameMatches name kw) then some p.1 else none) with
  | some c => c
  | none =>
    match CATEGORY_KEYWORDS.findSome?
        (fun p => if p.2.any (fun kw => tagMatches kw (tags.getD [])) then some p.1 else none) with
    | some c => c
    | none => "misc"

/-- `categorizeByKeywords(name, tags)`.  `tags` is `none` when the caller
passes `undefined`/`null` (the source guards with `tags || []`).  Step 1 is
`if (NAME_OVERRIDES[name]) return NAME_OVERRIDES[name]`: the property read
goes through `jsGet`, so a name such as `constructor` or `toString` hits
the truthy inherited `Object.prototype` member and is returned as the
category. -/
def categorizeByKeywords (name : String) (tags : Option (List String)) : JsVal :=
  match jsGet NAME_OVERRIDES name with
  | some v => if jsTruthy v then v else JsVal.str (categorizeKeywordScan name tags)
  | none => JsVal.str (categorizeKeywordScan name tags)

/- ── `cleanSvg` ──────────────────────────────────────────────────────
`cleanSvg(svg) = svg.replace(comment-regex-global, '').trim()` where the
comment regex matches `<!--`, then lazily any characters up to the first
`-->`, then one optional newline.  The global replace scans left to right
and deletes non-overlapping matches; an opener with no later closer is
skipped (the scan moves one character forward).  The recursion is
structural on a fuel argument that starts at the string length. -/

def openerL : List Char := ['<', '!', '-', '-']

def closerL : List Char := ['-', '-', '>']

/-- Drop one leading newline if present (the regex's optional newline). -/
def dropNl : List Char → List Char
  | [] => []
  | c :: r => if c = '\n' then r else c :: r

/-- Lazily scan for the first `-->`; on success return everything after it
(with one optional newline consumed), mirroring the lazy regex body. -/
def skipToClose : List Char → Option (List Char)
  | [] => none
  | c :: rest =>
    if closerL.isPrefixOf (c :: rest) then some (dropNl ((c :: rest).drop 3))
    else skipToClose rest

def removeCommentsAux : Nat → List Char → List Char
  | 0, s => s
  | _ + 1, [] => []
  | fuel + 1, c :: rest =>
    if openerL.isPrefixOf (c :: rest) then
      match skipToClose ((c :: rest).drop 4) with
      | some r2 => removeCommentsAux fuel r2
      | none => c :: removeCommentsAux fuel rest
    else c :: removeCommentsAux fuel rest

def removeComments (s : List Char) : List Char := removeCommentsAux s.length s

/-- `s.trim()` (ASCII whitespace suffices for this data): drop whitespace
from the front, then from the back. -/
def jsTrim (s : List Char) : List Char :=
  List.rdropWhile Char.isWhitespace (s.dropWhile Char.isWhitespace)

/-- `cleanSvg(svgContent)` from process-icons.js. -/
def cleanSvg (svgContent : String) : String :=
  ⟨jsTrim (removeComments svgContent.data)⟩

/-- `s` contains a complete comment: an occurrence of `<!--` followed
(somewhere later) by `-->`. -/
def ContainsFullComment (s : String) : Prop :=
  ∃ u v w : List Char, s.data = u ++ openerL ++ v ++ closerL ++ w

/-- A well-formed text fragment between comments: it contains no `<!`
fragment and does not end with a dangling `<`.  The text of real SVG
bodies (tags, attributes, path data) satisfies this. -/
def goodText (t : List Char) : Prop :=
  isInfixL ['<', '!'] t = false ∧ t.getLast? ≠ some '<'

/-- `assembleComments t0 [(b1, t1), (b2, t2), ...]` is the string
`t0 <!--b1--> t1 <!--b2--> t2 ...`: an arbitrary interleaving of texts
and complete comments. -/
def assembleComments : List Char → List (List Char × List Char) → List Char
  | t0, [] => t0
  | t0, (b, t) :: segs => t0 ++ (openerL ++ (b ++ (closerL ++ assembleComments t segs)))

/- ── Library adapters ─────────────────────────────────────────────────
Each `processX` function is the pure core of the corresponding source
adapter: the file-system directory listing and sidecar metadata files are
the function's input (with `none` for a missing/not-installed source
directory), and the list of produced icon records is its output.  The SVG
copying side effects write the records' cleaned file contents and do not
influence the records themselves. -/

structure Icon where
  id : String
  name : String
  library : String
  category : JsVal
  type : String
  tags : List String
deriving DecidableEq, Repr

/-- `Array.prototype.sort()` on file names (lexicographic). -/
def sortStr (l : List String) : List String :=
  List.insertionSort (fun a b => a ≤ b) l

def isWordChar (c : Char) : Bool := c.isAlphanum || c = '_'

def capWordsAux : Option Char → List Char → List Char
  | _, [] => []
  | prev, c :: rest =>
    (if isWordChar c && (match prev with | none => true | some p => ! isWordChar p)
     then c.toUpper else c) :: capWordsAux (some c) rest

/-- `toDisplayName(filename)`: hyphens become spaces, first letter of every
word is uppercased. -/
def toDisplayName (filename : String) : String :=
  ⟨capWordsAux none (filename.data.map (fun c => if c = '-' then ' ' else c))⟩

structure LucideData where
  files : List String
  tags : List (String × List String)
deriving Repr

/-- `processLucide()`.  The source reads `tagsData[name] || []`; for a name
colliding with an `Object.prototype` member key the read yields the truthy
inherited member, which `categorizeByKeywords` never consults (its override
probe on the same name returns first) and which `JSON.stringify` omits from
the record, so the `tags` field is modelled as the empty list in that
corner. -/
def processLucide : Option LucideData → List Icon
  | none => []
  | some d =>
    let svgFiles := sortStr (d.files.filter (fun f => jsEndsWith f ".svg"))
    svgFiles.map (fun file =>
      let name := jsReplaceFirst file ".svg"
      let tags := (d.tags.lookup name).getD []
      { id := "lucide/" ++ name
        name := toDisplayName name
        library := "lucide"
        category := categorizeByKeywords name (some tags)
        type := "outline"
        tags := tags })

structure TablerMeta where
  category : String
  tags : Option (List String)
deriving Repr

structure TablerData where
  meta : List (String × TablerMeta)
  catFolders : Option (List (String × List String))
  outlineFiles : List String
  filledFiles : List String
deriving Repr

/-- JS object assignment `m[k] = v` on an association list (overwrite or
append).  Assigning under the key `__proto__` invokes the inherited
prototype setter with a string argument, which is silently ignored and
creates no own property. -/
def assocSet (m : List (String × String)) (k v : String) : List (String × String) :=
  if k = "__proto__" then m
  else if (m.lookup k).isSome then m.map (fun p => if p.1 = k then (k, v) else p)
  else m ++ [(k, v)]

/-- The reverse category lookup built from the `categories/outline` folder
tree: for each folder, each contained icon name maps to the folder name. -/
def buildTablerLookup : Option (List (String × List String)) → List (String × String)
  | none => []
  | some folders =>
    folders.foldl
      (fun acc p =>
        (p.2.filter (fun f => jsEndsWith f ".svg")).foldl
          (fun acc2 svg => assocSet acc2 (jsReplaceFirst svg ".svg") p.1) acc)
      []

/-- One Tabler record.  `tablerCategoryLookup[name]` is a bare truthy probe
(`jsGet`), so a prototype-member name yields the truthy inherited member;
`TABLER_CATEGORY_MAP[tablerCat]` then coerces that non-string key
(`jsGetV`).  `tablerMeta[name]` is only consulted through `meta?.tags` and
`meta && meta.category`, on which an inherited-member hit behaves exactly
like an absent entry, so it stays an own-entry lookup. -/
def tablerIcon (d : TablerData) (lookupT : List (String × String))
    (styleDir : String) (file : String) : Icon :=
  let name := jsReplaceFirst file ".svg"
  let meta := d.meta.lookup name
  let tablerCat : JsVal := jsValOr (jsGet lookupT name)
    (jsValOr ((meta.map (fun m => m.category)).map JsVal.str) (JsVal.str ""))
  let category := jsValOr (jsGetV TABLER_CATEGORY_MAP tablerCat)
    (categorizeByKeywords name (meta.bind (fun m => m.tags)))
  let tags := (meta.bind (fun m => m.tags)).getD []
  { id := "tabler/" ++ styleDir ++ "/" ++ name
    name := toDisplayName name
    library := "tabler"
    category := category
    type := styleDir
    tags := tags }

/-- `processTabler()` -/
def processTabler : Option TablerData → List Icon
  | none => []
  | some d =>
    let lookupT := buildTablerLookup d.catFolders
    let outlineFiles := sortStr (d.outlineFiles.filter (fun f => jsEndsWith f ".svg"))
    let filledFiles := sortStr (d.filledFiles.filter (fun f => jsEndsWith f ".svg"))
    outlineFiles.map (tablerIcon d lookupT "outline") ++
      filledFiles.map (tablerIcon d lookupT "filled")

structure HeroData where
  outlineFiles : List String
  solidFiles : List String
deriving Repr

def heroIcon (styleDir : String) (file : String) : Icon :=
  let name := jsReplaceFirst file ".svg"
  { id := "heroicons/" ++ styleDir ++ "/" ++ name
    name := toDisplayName name
    library := "heroicons"
    category := categorizeByKeywords name (some [])
    type := styleDir
    tags := [] }

/-- `processHeroicons()` -/
def processHeroicons : Option HeroData → List Icon
  | none => []
  | some d =>
    (sortStr (d.outlineFiles.filter (fun f => jsEndsWith f ".svg"))).map (heroIcon "outline") ++
      (sortStr (d.solidFiles.filter (fun f => jsEndsWith f ".svg"))).map (heroIcon "solid")

structure PhosphorMeta where
  categories : List String
  tags : List String
deriving Repr

structure PhosphorData where
  meta : List (String × PhosphorMeta)
  regular : Option (List String)
  bold : Option (List String)
  fill : Option (List String)
deriving Repr

/-- The category of one Phosphor icon: the first vendor category whose
probe `if (PHOSPHOR_CATEGORY_MAP[c])` is truthy wins (default `misc`); a
vendor category named after an `Object.prototype` member hits the truthy
inherited member and is stored as the category; keywords are only consulted
when the result is still the string `misc` and the vendor list is empty. -/
def phosphorCategory (cats tags : List String) (name : String) : JsVal :=
  let category0 := (cats.findSome? (jsGetTruthy PHOSPHOR_CATEGORY_MAP)).getD (JsVal.str "misc")
  if category0 = JsVal.str "misc" ∧ cats = [] then categorizeByKeywords name (some tags)
  else category0

def phosphorIcon (d : PhosphorData) (dirName typeName sfx file : String) : Icon :=
  let name := jsReplaceFirst (jsReplaceFirst file ".svg") sfx
  let meta := d.meta.lookup name
  let cats := (meta.map (fun m => m.categories)).getD []
  let tags := ((meta.map (fun m => m.tags)).getD []).filter (fun t => t ≠ "*new*")
  { id := "phosphor/" ++ dirName ++ "/" ++ name
    name := toDisplayName name
    library := "phosphor"
    category := phosphorCategory cats tags name
    type := typeName
    tags := tags }

def phosphorStyleIcons (d : PhosphorData) (dirFiles : Option (List String))
    (dirName typeName sfx : String) : List Icon :=
  match dirFiles with
  | none => []
  | some files =>
    (sortStr (files.filter (fun f => jsEndsWith f ".svg"))).map
      (phosphorIcon d dirName typeName sfx)

/-- `processPhosphor()`: regular (outline), bold, fill styles. -/
def processPhosphor : Option PhosphorData → List Icon
  | none => []
  | some d =>
    phosphorStyleIcons d d.regular "regular" "outline" "" ++
      phosphorStyleIcons d d.bold "bold" "bold" "-bold" ++
      phosphorStyleIcons d d.fill "fill" "filled" "-fill"

def bootstrapOutlineIcon (file : String) : Icon :=
  let name := jsReplaceFirst file ".svg"
  { id := "bootstrap/outline/" ++ name
    name := toDisplayName name
    library := "bootstrap"
    category := categorizeByKeywords name (some [])
    type := "outline"
    tags := [] }

def bootstrapFilledIcon (file : String) : Icon :=
  let name := jsReplaceFirst file ".svg"
  let baseName := stripAnchored name "-fill"
  { id := "bootstrap/filled/" ++ name
    name := toDisplayName name
    library := "bootstrap"
    category := categorizeByKeywords baseName (some [])
    type := "filled"
    tags := [] }

/-- `processBootstrap()`: files without the `-fill` suffix are outline,
the rest are filled (categorized by the suffix-stripped base name). -/
def processBootstrap : Option (List String) → List Icon
  | none => []
  | some files =>
    let allFiles := sortStr (files.filter (fun f => jsEndsWith f ".svg"))
    let outlineFiles := allFiles.filter (fun f => ¬ jsEndsWith f "-fill.svg" = true)
    let fillFiles := allFiles.filter (fun f => jsEndsWith f "-fill.svg")
    outlineFiles.map bootstrapOutlineIcon ++ fillFiles.map bootstrapFilledIcon

structure IconoirData where
  regular : List String
  solid : Option (List String)
deriving Repr

def iconoirIcon (styleDir typeName : String) (file : String) : Icon :=
  let name := jsReplaceFirst file ".svg"
  { id := "iconoir/" ++ styleDir ++ "/" ++ name
    name := toDisplayName name
    library := "iconoir"
    category := categorizeByKeywords name (some [])
    type := typeName
    tags := [] }

/-- `processIconoir()` -/
def processIconoir : Option IconoirData → List Icon
  | none => []
  | some d =>
    (sortStr (d.regular.filter (fun f => jsEndsWith f ".svg"))).map (iconoirIcon "regular" "outline") ++
      (match d.solid with
       | none => []
       | some solidFiles =>
         (sortStr (solidFiles.filter (fun f => jsEndsWith f ".svg"))).map (iconoirIcon "solid" "solid"))

def remixIcon (ourCategory : JsVal) (file : String) : Icon :=
  let rawName := jsReplaceFirst file ".svg"
  let td : String × String :=
    if jsEndsWith rawName "-fill" then ("filled", stripAnchored rawName "-fill")
    else if jsEndsWith rawName "-line" then ("outline", stripAnchored rawName "-line")
    else ("outline", rawName)
  { id := "remix/" ++ td.1 ++ "/" ++ td.2
    name := toDisplayName td.2
    library := "remix"
    category := ourCategory
    type := td.1
    tags := [] }

/-- `processRemixIcon()`: one directory per vendor category, mapped through
`REMIX_CATEGORY_MAP[catDir] || 'misc'`; a directory named after an
`Object.prototype` member makes the read hit the truthy inherited member,
which becomes the category of every icon in that directory. -/
def processRemixIcon : Option (List (String × List String)) → List Icon
  | none => []
  | some categoryDirs =>
    categoryDirs.flatMap (fun p =>
      let ourCategory := jsValOr (jsGet REMIX_CATEGORY_MAP p.1) (JsVal.str "misc")
      (p.2.filter (fun f => jsEndsWith f ".svg")).map (remixIcon ourCategory))

def underscoreToHyphen (s : String) : String :=
  ⟨s.data.map (fun c => if c = '_' then '-' else c)⟩

def fluentIcon (styleDir sfx : String) (file : String) : Icon :=
  let name := underscoreToHyphen (jsReplaceFirst file sfx)
  { id := "fluent/" ++ styleDir ++ "/" ++ name
    name := toDisplayName name
    library := "fluent"
    category := categorizeByKeywords name (some [])
    type := styleDir
    tags := [] }

/-- `processFluent()`: only the 24px regular/filled assets are used. -/
def processFluent : Option (List String) → List Icon
  | none => []
  | some files =>
    let allFiles := files.filter (fun f => jsEndsWith f ".svg")
    let regularFiles := allFiles.filter (fun f => jsEndsWith f "_24_regular.svg")
    let filledFiles := allFiles.filter (fun f => jsEndsWith f "_24_filled.svg")
    regularFiles.map (fluentIcon "outline" "_24_regular.svg") ++
      filledFiles.map (fluentIcon "filled" "_24_filled.svg")

structure MdiEntry where
  name : String
  deprecated : Bool
  tags : List String
  aliases : List String
deriving Repr

structure MdiData where
  meta : List MdiEntry
  files : List String
deriving Repr

/-- The category of one MDI icon: the first MDI tag whose probe
`if (MDI_CATEGORY_MAP[tag])` is truthy wins (a tag named after an
`Object.prototype` member hits the truthy inherited member); a result still
equal to the string `misc` falls back to the keyword scan over the base
name and aliases. -/
def mdiCategory (entry : Option MdiEntry) (baseName : String) : JsVal :=
  let category0 :=
    match entry with
    | some e =>
      if 0 < e.tags.length then
        (e.tags.findSome? (jsGetTruthy MDI_CATEGORY_MAP)).getD (JsVal.str "misc")
      else JsVal.str "misc"
    | none => JsVal.str "misc"
  if category0 = JsVal.str "misc" then
    categorizeByKeywords baseName (some ((entry.map (fun e => e.aliases)).getD []))
  else category0

/-- One MDI file, when the file does not crash the run (see
`mdiFileThrows`): `metaLookup[name]` resolved to the own entry (assignment
order makes the last metadata entry win) or to nothing.  `none` means the
deprecated-entry skip. -/
def mdiIconOfFile (d : MdiData) (file : String) : Option Icon :=
  let name := jsReplaceFirst file ".svg"
  let entry := d.meta.reverse.find? (fun e => e.name = name)
  if (entry.map (fun e => e.deprecated)).getD false then none
  else
    let isOutline := jsEndsWith name "-outline"
    let typeName := if isOutline then "outline" else "filled"
    let baseName := if isOutline then stripAnchored name "-outline" else name
    some { id := "mdi/" ++ typeName ++ "/" ++ name
           name := toDisplayName name
           library := "mdi"
           category := mdiCategory entry baseName
           type := typeName
           tags := (entry.map (fun e => e.tags)).getD [] }

/-- `processMdi()`: deprecated entries are skipped; the `-outline` suffix
selects the outline style; the first mapped MDI tag wins, then keywords.
Its value is the icon list of a run that completes; when some file makes
`mdiFileThrows` true the real run aborts instead (see `pipelineThrows`). -/
def processMdi : Option MdiData → List Icon
  | none => []
  | some d =>
    let allFiles := sortStr (d.files.filter (fun f => jsEndsWith f ".svg"))
    allFiles.filterMap (mdiIconOfFile d)

/-- Whether one MDI file crashes the run: for a name colliding with an
`Object.prototype` member and carrying no own metadata entry,
`entry = metaLookup[name]` is the truthy inherited member, so the guard
`entry && entry.deprecated` passes it through and
`entry.tags.length` dereferences `undefined`, raising a TypeError. -/
def mdiFileThrows (d : MdiData) (file : String) : Bool :=
  let name := jsReplaceFirst file ".svg"
  (d.meta.reverse.find? (fun e => e.name = name)).isNone && decide (name ∈ OBJ_PROTO_KEYS)

/-- Whether `processMdi` raises a TypeError, aborting the whole
`process-icons.js` run before any manifest, report or libraries document is
written. -/
def mdiRunThrows (d : MdiData) : Bool :=
  (sortStr (d.files.filter (fun f => jsEndsWith f ".svg"))).any (mdiFileThrows d)

def ioniconsRecord (td : String × String) : Icon :=
  { id := "ionicons/" ++ td.1 ++ "/" ++ td.2
    name := toDisplayName td.2
    library := "ionicons"
    category := categorizeByKeywords td.2 (some [])
    type := td.1
    tags := [] }

def ioniconsIconOfFile (file : String) : Option Icon :=
  let rawName := jsReplaceFirst file ".svg"
  if jsStartsWith rawName "logo-" then none
  else
    some (ioniconsRecord
      (if jsEndsWith rawName "-outline" then ("outline", stripAnchored rawName "-outline")
       else if jsEndsWith rawName "-sharp" then ("sharp", stripAnchored rawName "-sharp")
       else ("filled", rawName)))

/-- `processIonicons()`: brand logos are skipped; `-outline`/`-sharp`
suffixes select the style, everything else is filled. -/
def processIonicons : Option (List String) → List Icon
  | none => []
  | some files =>
    let allFiles := sortStr (files.filter (fun f => jsEndsWith f ".svg"))
    allFiles.filterMap ioniconsIconOfFile

/-- One IconPark metadata entry together with the outcome of the external
renderer, which is a `node_modules` library (not part of this repository):
`hasExport` records whether a matching export function exists, and
`outlineOk`/`filledOk` whether rendering the theme returned a string. -/
structure IconParkEntry where
  name : String
  category : String
  hasExport : Bool
  outlineOk : Bool
  filledOk : Bool
deriving Repr

def iconParkIcon (name : String) (category : JsVal) (typeName : String) : Icon :=
  { id := "iconpark/" ++ typeName ++ "/" ++ name
    name := toDisplayName name
    library := "iconpark"
    category := category
    type := typeName
    tags := [] }

/-- `processIconPark()`: entries without a matching export are skipped
(`hasExport` records the outcome of the `pascalLookup[name]` probe and the
`typeof` test on the library export, which in particular is false when the
probe only hit an inherited `Object.prototype` member, since its coerced
key names no export); each of the outline/filled themes yields a record
when rendering succeeds.  The category is
`ICONPARK_CATEGORY_MAP[meta.category] || 'misc'`, so a vendor category
named after an `Object.prototype` member becomes the truthy inherited
member. -/
def processIconPark : Option (List IconParkEntry) → List Icon
  | none => []
  | some metas =>
    metas.flatMap (fun m =>
      if ¬ m.hasExport = true then []
      else
        let category := jsValOr (jsGet ICONPARK_CATEGORY_MAP m.category) (JsVal.str "misc")
        (if m.outlineOk then [iconParkIcon m.name category "outline"] else []) ++
          (if m.filledOk then [iconParkIcon m.name category "filled"] else []))

/- ── Main pipeline (`main()` of process-icons.js) ─────────────────────── -/

structure PipelineInput where
  lucide : Option LucideData
  tabler : Option TablerData
  heroicons : Option HeroData
  phosphor : Option PhosphorData
  bootstrap : Option (List String)
  iconoir : Option IconoirData
  remix : Option (List (String × List String))
  fluent : Option (List String)
  mdi : Option MdiData
  ionicons : Option (List String)
  iconpark : Option (List IconParkEntry)
deriving Repr

/-- Whether the `main()` run of process-icons.js aborts with an uncaught
TypeError instead of completing: the only adapter that can throw on its
input data is the MDI one (see `mdiFileThrows`); every other dictionary
read either guards its dereferences with `?.`/`&&` or uses the read value
without member access. -/
def pipelineThrows (inp : PipelineInput) : Bool :=
  match inp.mdi with
  | some d => mdiRunThrows d
  | none => false

/-- The concatenation of all adapters' outputs, in source order. -/
def allIconsOf (inp : PipelineInput) : List Icon :=
  processLucide inp.lucide ++ processTabler inp.tabler ++ processHeroicons inp.heroicons ++
    processPhosphor inp.phosphor ++ processBootstrap inp.bootstrap ++
    processIconoir inp.iconoir ++ processRemixIcon inp.remix ++ processFluent inp.fluent ++
    processMdi inp.mdi ++ processIonicons inp.ionicons ++ processIconPark inp.iconpark

/-- JS object increment `m[k] = (m[k] || 0) + 1` (insertion-ordered keys). -/
def bump (k : String) : List (String × Nat) → List (String × Nat)
  | [] => [(k, 1)]
  | (k', n) :: rest => if k = k' then (k', n + 1) :: rest else (k', n) :: bump k rest

/-- The stats objects built by the `for (const icon of allIcons)` loop. -/
def statsFold (keys : List String) : List (String × Nat) :=
  keys.foldl (fun m k => bump k m) []

structure CategoryCount where
  id : String
  label : String
  count : Nat
deriving DecidableEq, Repr

structure LibraryMeta where
  id : String
  name : String
  version : String
  url : String
  license : String
  licenseUrl : String
  attribution : String
  iconCount : Nat
  description : String
deriving DecidableEq, Repr

structure Manifest where
  version : Nat
  generated : String
  icons : List Icon
  categories : List CategoryCount
  libraries : List LibraryMeta
deriving DecidableEq, Repr

structure UncatIcon where
  id : String
  name : String
  tags : List String
deriving DecidableEq, Repr

structure Report where
  totalIcons : Nat
  categorized : Nat
  uncategorized : Nat
  libraryBreakdown : List (String × Nat)
  typeBreakdown : List (String × Nat)
  categoryBreakdown : List (String × Nat)
  uncategorizedIcons : List UncatIcon
deriving DecidableEq, Repr

/-- `categoryStats[icon.category]` uses the category value as a property
key, coercing a non-string category to its string form first. -/
def categoryStatsOf (icons : List Icon) : List (String × Nat) :=
  statsFold (icons.map (fun i => jsKeyStr i.category))

def libraryStatsOf (icons : List Icon) : List (String × Nat) :=
  statsFold (icons.map (fun i => i.library))

def typeStatsOf (icons : List Icon) : List (String × Nat) :=
  statsFold (icons.map (fun i => i.type))

/-- `icon.category === 'misc'`: strict equality with the string `misc`. -/
def uncategorizedOf (icons : List Icon) : List UncatIcon :=
  (icons.filter (fun i => i.category = JsVal.str "misc")).map (fun i => ⟨i.id, i.name, i.tags⟩)

/-- The static library metadata of the manifest, with the derived
per-library icon counts. -/
def librariesOf (libraryStats : List (String × Nat)) : List LibraryMeta := [
  { id := "lucide", name := "Lucide", version := "0.574.0",
    url := "https://lucide.dev", license := "ISC",
    licenseUrl := "https://github.com/lucide-icons/lucide/blob/main/LICENSE",
    attribution := "Lucide Contributors",
    iconCount := (libraryStats.lookup "lucide").getD 0,
    description := "Beautiful & consistent icon toolkit made by the community" },
  { id := "tabler", name := "Tabler Icons", version := "3.36.1",
    url := "https://tabler.io/icons", license := "MIT",
    licenseUrl := "https://github.com/tabler/tabler-icons/blob/main/LICENSE",
    attribution := "Tabler Icons Contributors",
    iconCount := (libraryStats.lookup "tabler").getD 0,
    description := "Free and open source icons designed for everyday use" },
  { id := "heroicons", name := "Heroicons", version := "2.2.0",
    url := "https://heroicons.com", license := "MIT",
    licenseUrl := "https://github.com/tailwindlabs/heroicons/blob/master/LICENSE",
    attribution := "Tailwind Labs",
    iconCount := (libraryStats.lookup "heroicons").getD 0,
    description := "Beautiful hand-crafted SVG icons by the makers of Tailwind CSS" },
  { id := "phosphor", name := "Phosphor Icons", version := "2.1.1",
    url := "https://phosphoricons.com", license := "MIT",
    licenseUrl := "https://github.com/phosphor-icons/core/blob/main/LICENSE",
    attribution := "Phosphor Icons Contributors",
    iconCount := (libraryStats.lookup "phosphor").getD 0,
    description := "A flexible icon family for interfaces, diagrams, and presentations" },
  { id := "bootstrap", name := "Bootstrap Icons", version := "1.13.1",
    url := "https://icons.getbootstrap.com", license := "MIT",
    licenseUrl := "https://github.com/twbs/icons/blob/main/LICENSE",
    attribution := "The Bootstrap Authors",
    iconCount := (libraryStats.lookup "bootstrap").getD 0,
    description := "Official open source SVG icon library for Bootstrap" },
  { id := "iconoir", name := "Iconoir", version := "7.11.0",
    url := "https://iconoir.com", license := "MIT",
    licenseUrl := "https://github.com/iconoir-icons/iconoir/blob/main/LICENSE",
    attribution := "Luca Burgio",
    iconCount := (libraryStats.lookup "iconoir").getD 0,
    description := "A high-quality selection of free icons with no premium options" },
  { id := "remix", name := "Remix Icon", version := "4.9.1",
    url := "https://remixicon.com", license := "Apache-2.0",
    licenseUrl := "https://github.com/Remix-Design/RemixIcon/blob/master/License",
    attribution := "Remix Design",
    iconCount := (libraryStats.lookup "remix").getD 0,
    description := "Open-source neutral-style system symbols elaborately crafted for designers and developers" },
  { id := "fluent", name := "Fluent UI Icons", version := "1.1.319",
    url := "https://github.com/microsoft/fluentui-system-icons", license := "MIT",
    licenseUrl := "https://github.com/microsoft/fluentui-system-icons/blob/main/LICENSE",
    attribution := "Microsoft",
    iconCount := (libraryStats.lookup "fluent").getD 0,
    description := "Fluent System Icons by Microsoft — a collection of familiar, friendly icons" },
  { id := "mdi", name := "Material Design Icons", version := "7.4.47",
    url := "https://materialdesignicons.com", license := "Apache-2.0",
    licenseUrl := "https://github.com/Templarian/MaterialDesign/blob/master/LICENSE",
    attribution := "Austin Andrews & Contributors",
    iconCount := (libraryStats.lookup "mdi").getD 0,
    description := "Community-led icon collection with 7000+ icons for Material Design" },
  { id := "ionicons", name := "Ionicons", version := "8.0.13",
    url := "https://ionic.io/ionicons", license := "MIT",
    licenseUrl := "https://github.com/ionic-team/ionicons/blob/main/LICENSE",
    attribution := "Ionic Team",
    iconCount := (libraryStats.lookup "ionicons").getD 0,
    description := "Premium designed icons for use in web, iOS, Android, and desktop apps" },
  { id := "iconpark", name := "IconPark", version := "1.4.2",
    url := "https://iconpark.oceanengine.com", license := "Apache-2.0",
    licenseUrl := "https://github.com/nicedoc/icon-park/blob/master/LICENSE",
    attribution := "ByteDance",
    iconCount := (libraryStats.lookup "iconpark").getD 0,
    description := "Over 2600 high-quality icons by ByteDance with multiple themes" }]

/-- The manifest document written to `manifest.json` by a run that
completes (no manifest is written when `pipelineThrows` holds).  `now` is
the `new Date().toISOString()` clock reading of the run. -/
def buildManifest (inp : PipelineInput) (now : String) : Manifest :=
  let allIcons := allIconsOf inp
  let categoryStats := categoryStatsOf allIcons
  let libraryStats := libraryStatsOf allIcons
  { version := 3
    generated := now
    icons := allIcons
    categories := CATEGORIES.map (fun cat =>
      { id := cat.id, label := cat.label, count := (categoryStats.lookup cat.id).getD 0 })
    libraries := librariesOf libraryStats }

/-- `.sort((a, b) => b[1] - a[1])`: descending by count. -/
def sortByCountDesc (l : List (String × Nat)) : List (String × Nat) :=
  List.insertionSort (fun a b => b.2 ≤ a.2) l

/-- The report document written to `report.json`. -/
def buildReport (inp : PipelineInput) : Report :=
  let allIcons := allIconsOf inp
  let uncat := uncategorizedOf allIcons
  { totalIcons := allIcons.length
    categorized := allIcons.length - uncat.length
    uncategorized := uncat.length
    libraryBreakdown := sortByCountDesc (libraryStatsOf allIcons)
    typeBreakdown := sortByCountDesc (typeStatsOf allIcons)
    categoryBreakdown := sortByCountDesc (categoryStatsOf allIcons)
    uncategorizedIcons := uncat }

/-- The `libraries.json` document: just the manifest's libraries array. -/
def buildLibrariesDoc (inp : PipelineInput) (now : String) : List LibraryMeta :=
  (buildManifest inp now).libraries

/- ── Publisher (upload-icons.js) ─────────────────────────────────────── -/

/-- `const uploadManifest = args.length === 0 || args.includes('--manifest')` -/
def uploadManifestFlag (args : List String) : Bool :=
  args.isEmpty || args.contains "--manifest"

/-- `const uploadSvgs = args.length === 0 || args.includes('--svgs')` -/
def uploadSvgsFlag (args : List String) : Bool :=
  args.isEmpty || args.contains "--svgs"

/-- `const libFilter = args.includes('--lib') ? args[args.indexOf('--lib') + 1] : null` -/
def libFilterOf (args : List String) : Option String :=
  if args.contains "--lib" then args.get? (List.indexOf "--lib" args + 1) else none

inductive UploadAction where
  | kvPut (key : String)
  | r2Put (key : String)
deriving DecidableEq, Repr

/-- The sequence of remote uploads attempted by `main()` of
upload-icons.js, given the CLI arguments and the r2 keys of the SVG files
found under the build directory: the manifest phase uploads the two KV
keys, the SVG phase uploads each (possibly library-filtered) file. -/
def mainUploads (args : List String) (svgKeys : List String) : List UploadAction :=
  (if uploadManifestFlag args then
    [UploadAction.kvPut "icon-manifest", UploadAction.kvPut "icon-libraries"]
   else []) ++
  (if uploadSvgsFlag args then
    (match libFilterOf args with
     | some lib => svgKeys.filter (fun k => jsStartsWith k (lib ++ "/"))
     | none => svgKeys).map UploadAction.r2Put
   else [])

/- ── The upload worker pool (`parallelMap` of upload-icons.js) ─────────
`parallelMap(items, fn, concurrency)` starts `concurrency` async workers;
each worker atomically grabs the next index (`const i = index++` runs
without an intervening await), awaits `fn(items[i])`, and bumps the
`completed` or `failed` counter.  The model is a small-step transition
system: a `claim w` step is worker `w` grabbing the next index, a
`finish w` step is the awaited upload of worker `w` resolving.  `outcomes`
fixes the success/failure of each item's upload.  Any interleaving of the
JS event loop corresponds to a sequence of these events. -/

structure PoolState where
  idx : Nat
  completed : Nat
  failed : Nat
  running : List (Nat × Nat)
  claimedLog : List Nat
deriving DecidableEq, Repr

inductive PoolEvent where
  | claim (w : Nat)
  | finish (w : Nat)
deriving DecidableEq, Repr

def poolInit : PoolState := ⟨0, 0, 0, [], []⟩

def poolStep (wCount : Nat) (outcomes : List Bool) (s : PoolState) :
    PoolEvent → Option PoolState
  | PoolEvent.claim w =>
    if w < wCount ∧ (s.running.all (fun p => p.1 != w)) = true ∧ s.idx < outcomes.length then
      some { s with
        idx := s.idx + 1
        running := (w, s.idx) :: s.running
        claimedLog := s.claimedLog ++ [s.idx] }
    else none
  | PoolEvent.finish w =>
    match s.running.find? (fun p => p.1 == w) with
    | some pr =>
      some { s with
        running := s.running.filter (fun p => p.1 != w)
        completed := s.completed + (if outcomes.getD pr.2 false then 1 else 0)
        failed := s.failed + (if outcomes.getD pr.2 false then 0 else 1) }
    | none => none

def poolRun (wCount : Nat) (outcomes : List Bool) : PoolState → List PoolEvent → Option PoolState
  | s, [] => some s
  | s, e :: es =>
    match poolStep wCount outcomes s e with
    | some s2 => poolRun wCount outcomes s2 es
    | none => none

/-- The invariant tying the counters to the set of claimed and in-flight
items. -/
def PoolInv (outcomes : List Bool) (s : PoolState) : Prop :=
  s.idx ≤ outcomes.length ∧
  s.claimedLog = List.range s.idx ∧
  (s.running.map Prod.fst).Nodup ∧
  s.completed + (s.running.map Prod.snd).countP (fun i => outcomes.getD i false) =
    (List.range s.idx).countP (fun i => outcomes.getD i false) ∧
  s.failed + (s.running.map Prod.snd).countP (fun i => ! outcomes.getD i false) =
    (List.range s.idx).countP (fun i => ! outcomes.getD i false)

/- ── Helper lemmas for totality of the categorizer ──────────────────── -/

theorem lookup_mem_values {l : List (String × String)} {k v : String}
    (h : l.lookup k = some v) : v ∈ l.map Prod.snd := by
  induction l with
  | nil => simp [List.lookup] at h
  | cons p t ih =>
    rw [show p = (p.1, p.2) from rfl, List.lookup_cons] at h
    cases hk : k == p.1 with
    | true => simp [hk] at h; simp [h]
    | false => simp [hk] at h; exact List.mem_cons_of_mem _ (ih h)

theorem override_values_mem :
    ∀ v ∈ NAME_OVERRIDES.map Prod.snd, v ∈ CATEGORIES.map (fun c => c.id) := by decide

theorem keyword_keys_mem :
    ∀ p ∈ CATEGORY_KEYWORDS, p.1 ∈ CATEGORIES.map (fun c => c.id) := by decide

theorem misc_mem : "misc" ∈ CATEGORIES.map (fun c => c.id) := by decide

/-- The keyword scan only ever returns one of the twenty category ids of
`CATEGORIES`. -/
theorem scan_mem_ids (name : String) (tags : Option (List String)) :
    categorizeKeywordScan name tags ∈ CATEGORIES.map (fun c => c.id) := by
  unfold categorizeKeywordScan
  cases h2 : CATEGORY_KEYWORDS.findSome?
      (fun p => if p.2.any (fun kw => nameMatches name kw) then some p.1 else none) with
  | some c =>
    obtain ⟨p, hp, hfp⟩ := List.exists_of_findSome?_eq_some h2
    have hc : c = p.1 := by
      by_cases hcond : (p.2.any (fun kw => nameMatches name kw)) = true
      · simp [hcond] at hfp; exact hfp.symm
      · simp [hcond] at hfp
    exact hc ▸ keyword_keys_mem p hp
  | none =>
    cases h3 : CATEGORY_KEYWORDS.findSome?
        (fun p => if p.2.any (fun kw => tagMatches kw (tags.getD [])) then some p.1 else none) with
    | some c =>
      obtain ⟨p, hp, hfp⟩ := List.exists_of_findSome?_eq_some h3
      have hc : c = p.1 := by
        by_cases hcond : (p.2.any (fun kw => tagMatches kw (tags.getD []))) = true
        · simp [hcond] at hfp; exact hfp.symm
        · simp [hcond] at hfp
      exact hc ▸ keyword_keys_mem p hp
    | none => exact misc_mem

theorem jsGet_own {m : List (String × String)} {k v : String}
    (h : m.lookup k = some v) : jsGet m k = some (JsVal.str v) := by
  unfold jsGet; rw [h]

theorem jsGet_inherited {m : List (String × String)} {k : String}
    (h1 : m.lookup k = none) (h2 : k ∈ OBJ_PROTO_KEYS) :
    jsGet m k = some (JsVal.inherited k) := by
  unfold jsGet; rw [h1]; simp [h2]

theorem jsGet_absent {m : List (String × String)} {k : String}
    (h1 : m.lookup k = none) (h2 : k ∉ OBJ_PROTO_KEYS) :
    jsGet m k = none := by
  unfold jsGet; rw [h1]; simp [h2]

theorem override_no_empty : "" ∉ NAME_OVERRIDES.map Prod.snd := by decide

theorem proto_overrides_none :
    ∀ m ∈ OBJ_PROTO_KEYS, NAME_OVERRIDES.lookup m = none := by decide

/-- An icon name that collides with an `Object.prototype` member key makes
the override probe return the truthy inherited member as the category. -/
theorem categorize_proto (name : String) (tags : Option (List String))
    (h : name ∈ OBJ_PROTO_KEYS) :
    categorizeByKeywords name tags = JsVal.inherited name := by
  unfold categorizeByKeywords
  rw [jsGet_inherited (proto_overrides_none name h) h]
  simp [jsTruthy]

/-- An icon name free of `Object.prototype` member keys is categorized to a
string, and that string is one of the twenty ids. -/
theorem categorize_str (name : String) (tags : Option (List String))
    (h : name ∉ OBJ_PROTO_KEYS) :
    ∃ c, categorizeByKeywords name tags = JsVal.str c ∧
      c ∈ CATEGORIES.map (fun cat => cat.id) := by
  unfold categorizeByKeywords
  cases h1 : NAME_OVERRIDES.lookup name with
  | some c =>
    rw [jsGet_own h1]
    have hc : c ∈ NAME_OVERRIDES.map Prod.snd := lookup_mem_values h1
    have hne : (c == "") = false :=
      beq_eq_false_iff_ne.mpr (fun he => override_no_empty (he ▸ hc))
    refine ⟨c, ?_, override_values_mem c hc⟩
    simp [jsTruthy, hne]
  | none =>
    rw [jsGet_absent h1 h]
    exact ⟨categorizeKeywordScan name tags, rfl, scan_mem_ids name tags⟩

/-- All category values the categorizer can produce. -/
theorem categorize_good (name : String) (tags : Option (List String)) :
    GoodCat (categorizeByKeywords name tags) := by
  by_cases h : name ∈ OBJ_PROTO_KEYS
  · exact Or.inr ⟨name, h, categorize_proto name tags h⟩
  · obtain ⟨c, hc, hmem⟩ := categorize_str name tags h
    exact Or.inl ⟨c, hmem, hc⟩

/-- Claim C1 counterexample: for the icon name `constructor` the override
probe `NAME_OVERRIDES['constructor']` finds the inherited
`Object.prototype.constructor` (the `Object` function, which is truthy) and
returns it, so the categorizer's result is not one of the twenty category
id strings. -/
theorem categorizeByKeywords_counterexample :
    categorizeByKeywords "constructor" (some []) = JsVal.inherited "constructor" ∧
    JsVal.inherited "constructor" ∉
      (CATEGORIES.map (fun cat => cat.id)).map JsVal.str := by
  exact ⟨categorize_proto "constructor" (some []) (by decide), by decide⟩

/-- Claim C1 (amended): `categorizeByKeywords` is total and never throws,
and for every name that is not one of the twelve `Object.prototype` member
keys its result is one of the twenty fixed category id strings of
`CATEGORIES`; for a name that is such a member key, the result is instead
the truthy inherited member found by the override probe (a non-string
value, which `JSON.stringify` later omits). -/
theorem categorizeByKeywords_amended (name : String) (tags : Option (List String)) :
    (name ∉ OBJ_PROTO_KEYS →
      categorizeByKeywords name tags ∈ (CATEGORIES.map (fun cat => cat.id)).map JsVal.str) ∧
    (name ∈ OBJ_PROTO_KEYS →
      categorizeByKeywords name tags = JsVal.inherited name) := by
  constructor
  · intro h
    obtain ⟨c, hc, hmem⟩ := categorize_str name tags h
    exact List.mem_map.mpr ⟨c, hmem, hc.symm⟩
  · exact categorize_proto name tags

/-- Witness for C1 (amended) at the concrete names `heart` (an ordinary
name, categorized to an id string) and `valueOf` (a member key, categorized
to the inherited member). -/
theorem categorizeByKeywords_amended_witness :
    categorizeByKeywords "heart" none ∈
      (CATEGORIES.map (fun cat => cat.id)).map JsVal.str ∧
    categorizeByKeywords "valueOf" none = JsVal.inherited "valueOf" :=
  ⟨(categorizeByKeywords_amended "heart" none).1 (by decide),
   (categorizeByKeywords_amended "valueOf" none).2 (by decide)⟩

/-- Claim C3: the exact-name override table wins over the keyword scan:
`categorize("cloud-download", [])` is `infrastructure` (not the `files`
answer the keyword `download` would give after `cloud`), and
`categorize("eye-off", [])` is `actions` (not the `people` answer of the
`eye-` keyword); in general any override-table hit is returned directly. -/
theorem categorize_overrides_first :
    categorizeByKeywords "cloud-download" (some []) = "infrastructure" ∧
    categorizeByKeywords "eye-off" (some []) = "actions" ∧
    ∀ (name : String) (tags : Option (List String)) (c : String),
      NAME_OVERRIDES.lookup name = some c → categorizeByKeywords name tags = c := by
  refine ⟨rfl, rfl, ?_⟩
  intro name tags c h
  unfold categorizeByKeywords
  rw [jsGet_own h]
  have hc : c ∈ NAME_OVERRIDES.map Prod.snd := lookup_mem_values h
  have hne : (c == "") = false :=
    beq_eq_false_iff_ne.mpr (fun he => override_no_empty (he ▸ hc))
  simp [jsTruthy, hne]

/-- Witness for C3's general precedence clause at a concrete input:
`pin` is in the override table with value `location`, and the categorizer
returns exactly that. -/
theorem categorize_overrides_first_witness :
    categorizeByKeywords "pin" none = "location" :=
  categorize_overrides_first.2.2 "pin" none "location" rfl

/- ── String lemmas for the style-suffix strips (C4) ─────────────────── -/

theorem isPrefixOf_iff_exists {p l : List Char} :
    p.isPrefixOf l = true ↔ ∃ t, p ++ t = l := by
  induction p generalizing l with
  | nil => simp [List.isPrefixOf]
  | cons a as ih =>
    cases l with
    | nil => simp [List.isPrefixOf]
    | cons b bs =>
      simp only [List.isPrefixOf, Bool.and_eq_true, beq_iff_eq, ih, List.cons_append,
        List.cons.injEq]
      constructor
      · rintro ⟨rfl, t, rfl⟩; exact ⟨t, rfl, rfl⟩
      · rintro ⟨t, rfl, rfl⟩; exact ⟨rfl, t, rfl⟩

theorem isInfixL_iff_exists {pat s : List Char} :
    isInfixL pat s = true ↔ ∃ u v, u ++ pat ++ v = s := by
  induction s with
  | nil =>
    cases pat <;> simp [isInfixL, List.isEmpty]
  | cons c rest ih =>
    simp only [isInfixL, Bool.or_eq_true, isPrefixOf_iff_exists, ih]
    constructor
    · rintro (⟨t, ht⟩ | ⟨u, v, huv⟩)
      · exact ⟨[], t, by simpa using ht⟩
      · exact ⟨c :: u, v, by simp [huv]⟩
    · rintro ⟨u, v, huv⟩
      cases u with
      | nil => exact Or.inl ⟨v, by simpa using huv⟩
      | cons x u' =>
        have hx : x = c ∧ u' ++ pat ++ v = rest := by simpa using huv
        exact Or.inr ⟨u', v, hx.2⟩

theorem isSuffixOf_iff_exists {pat s : List Char} :
    pat.isSuffixOf s = true ↔ ∃ u, u ++ pat = s := by
  show pat.reverse.isPrefixOf s.reverse = true ↔ _
  rw [isPrefixOf_iff_exists]
  constructor
  · rintro ⟨t, ht⟩
    refine ⟨t.reverse, ?_⟩
    have h2 := congrArg List.reverse ht
    simpa [List.reverse_append] using h2
  · rintro ⟨u, rfl⟩
    exact ⟨u.reverse, by simp [List.reverse_append]⟩

theorem isInfixL_cons_false {pat : List Char} {c : Char} {rest : List Char}
    (h : isInfixL pat (c :: rest) = false) :
    pat.isPrefixOf (c :: rest) = false ∧ isInfixL pat rest = false := by
  simpa [isInfixL] using h

/-- If the pattern does not occur in `s`, the first-occurrence replace is
the identity. -/
theorem replFirstL_of_not_infixL {pat s : List Char} (h : isInfixL pat s = false) :
    replFirstL pat s = s := by
  induction s with
  | nil => rfl
  | cons c rest ih =>
    obtain ⟨h1, h2⟩ := isInfixL_cons_false h
    simp [replFirstL, h1, ih h2]

/-- Removing the first occurrence of a border-free pattern from
`name ++ pat` recovers `name` whenever `pat` does not occur in `name`. -/
theorem replFirstL_append_self {pat : List Char} (name : List Char) (hne : pat ≠ [])
    (hnb : noBorder pat = true) (hni : isInfixL pat name = false) :
    replFirstL pat (name ++ pat) = name := by
  induction name with
  | nil =>
    simp only [List.nil_append]
    cases pat with
    | nil => exact absurd rfl hne
    | cons c r =>
      have hpre : (c :: r).isPrefixOf (c :: r) = true :=
        isPrefixOf_iff_exists.mpr ⟨[], by simp⟩
      simp [replFirstL, hpre, List.drop_length]
  | cons c name' ih =>
    have hni' : isInfixL pat name' = false := (isInfixL_cons_false hni).2
    have hpre : pat.isPrefixOf (c :: name' ++ pat) = false := by
      by_contra hcon
      rw [Bool.not_eq_false] at hcon
      obtain ⟨t, ht⟩ := isPrefixOf_iff_exists.mp hcon
      by_cases hlen : pat.length ≤ (c :: name').length
      · have htake := congrArg (List.take pat.length) ht
        rw [List.take_left, show c :: name' ++ pat = (c :: name') ++ pat from rfl,
          List.take_append_of_le_length hlen] at htake
        have h5 : (c :: name').take pat.length ++ (c :: name').drop pat.length = c :: name' :=
          List.take_append_drop _ _
        rw [← htake] at h5
        have : isInfixL pat (c :: name') = true :=
          isInfixL_iff_exists.mpr ⟨[], (c :: name').drop pat.length, by simpa using h5⟩
        rw [this] at hni
        exact Bool.true_eq_false.mp hni
      · push_neg at hlen
        have hm : (c :: name').length ≤ pat.length := Nat.le_of_lt hlen
        have hdrop := congrArg (List.drop (c :: name').length) ht
        rw [List.drop_append_of_le_length hm,
          show c :: name' ++ pat = (c :: name') ++ pat from rfl, List.drop_left] at hdrop
        -- hdrop : pat.drop m ++ t = pat, where m = (c :: name').length
        have htk := congrArg (List.take (pat.length - (c :: name').length)) hdrop
        rw [List.take_left' (by rw [List.length_drop])] at htk
        -- htk : pat.drop m = pat.take (pat.length - m)
        have hk := List.all_eq_true.mp hnb (pat.length - (c :: name').length)
          (List.mem_range.mpr (by
            have : 0 < (c :: name').length := by simp
            omega))
        have hk0 : (pat.length - (c :: name').length) ≠ 0 := by omega
        rw [Bool.or_eq_true] at hk
        rcases hk with hk | hk
        · rw [beq_iff_eq] at hk
          exact hk0 hk
        · rw [bne_iff_ne] at hk
          exact hk (by rw [← htk, Nat.sub_sub_self hm])
    have hstep : replFirstL pat ((c :: name') ++ pat) = c :: replFirstL pat (name' ++ pat) := by
      rw [List.cons_append]
      simp only [replFirstL]
      rw [if_neg (by intro hcon; exact Bool.true_eq_false.mp (hcon.symm.trans hpre))]
    rw [hstep, ih hni']

/-- Appending a suffix and stripping it with the anchored (regex `dollar`)
strip always recovers the original string. -/
theorem stripAnchored_append (name pat : String) :
    stripAnchored (name ++ pat) pat = name := by
  unfold stripAnchored
  have hsuf : pat.data.isSuffixOf (name ++ pat).data = true := by
    rw [String.data_append]
    exact isSuffixOf_iff_exists.mpr ⟨name.data, rfl⟩
  rw [if_pos hsuf, String.data_append]
  have : (name.data ++ pat.data).length - pat.data.length = name.data.length := by
    rw [List.length_append, Nat.add_sub_cancel]
  rw [this, List.take_left]

/-- The anchored strip is the identity when the pattern is not a suffix. -/
theorem stripAnchored_of_not_suffix {s pat : String}
    (h : pat.data.isSuffixOf s.data = false) : stripAnchored s pat = s := by
  unfold stripAnchored
  rw [h]
  simp

theorem not_suffix_of_not_infixL {pat s : List Char}
    (h : isInfixL pat s = false) : pat.isSuffixOf s = false := by
  by_contra hcon
  rw [Bool.not_eq_false, isSuffixOf_iff_exists] at hcon
  obtain ⟨u, rfl⟩ := hcon
  rw [isInfixL_iff_exists.mpr ⟨u, [], by simp⟩] at h
  exact Bool.true_eq_false.mp h

/-- Claim C4 counterexample: the claim as stated fails on the code.  Phosphor's
suffix strip (`file.replace(style.suffix, '')`) removes the *first*
occurrence, so appending `-bold` to a name that already contains `-bold`
does not round-trip; and even the anchored strips are not idempotent:
stripping `x-fill-fill` twice differs from stripping it once. -/
theorem suffix_strip_counterexample :
    jsReplaceFirst ("x-bold-y" ++ "-bold") "-bold" ≠ "x-bold-y" ∧
    stripAnchored (stripAnchored ("x-fill" ++ "-fill") "-fill") "-fill" ≠
      stripAnchored ("x-fill" ++ "-fill") "-fill" := by
  constructor <;> decide

/-- Claim C4 (amended): for every base name and every style suffix in
{-outline, -fill, -line, -sharp, -bold}, appending the suffix and applying
the anchored strip used by the Bootstrap/Remix/Ionicons/MDI adapters always
recovers the name; and when the suffix does not occur inside the name,
the anchored strip is additionally idempotent on the appended input, and
Phosphor's first-occurrence strip both recovers the name and is idempotent
on it. -/
theorem suffix_strip_amended (name sfx : String)
    (hs : sfx ∈ (["-outline", "-fill", "-line", "-sharp", "-bold"] : List String)) :
    stripAnchored (name ++ sfx) sfx = name ∧
    (isInfixL sfx.data name.data = false →
      stripAnchored (stripAnchored (name ++ sfx) sfx) sfx = stripAnchored (name ++ sfx) sfx ∧
      jsReplaceFirst (name ++ sfx) sfx = name ∧
      jsReplaceFirst (jsReplaceFirst (name ++ sfx) sfx) sfx =
        jsReplaceFirst (name ++ sfx) sfx) := by
  have hne : sfx.data ≠ [] := by
    fin_cases hs <;> decide
  have hnb : noBorder sfx.data = true := by
    fin_cases hs <;> decide
  refine ⟨stripAnchored_append name sfx, fun hni => ⟨?_, ?_, ?_⟩⟩
  · rw [stripAnchored_append name sfx]
    exact stripAnchored_of_not_suffix (not_suffix_of_not_infixL hni)
  · show (⟨replFirstL sfx.data (name ++ sfx).data⟩ : String) = name
    rw [String.data_append, replFirstL_append_self name.data hne hnb hni]
  · rw [show jsReplaceFirst (name ++ sfx) sfx = ⟨replFirstL sfx.data (name ++ sfx).data⟩ from rfl,
      String.data_append, replFirstL_append_self name.data hne hnb hni]
    show (⟨replFirstL sfx.data name.data⟩ : String) = ⟨name.data⟩
    rw [replFirstL_of_not_infixL hni]

/-- Witness for C4's amended statement at the concrete input
`acorn` + `-bold` (a Phosphor bold icon file base name). -/
theorem suffix_strip_amended_witness :
    stripAnchored ("acorn" ++ "-bold") "-bold" = "acorn" ∧
    jsReplaceFirst ("acorn" ++ "-bold") "-bold" = "acorn" := by
  have h := suffix_strip_amended "acorn" "-bold" (by decide)
  exact ⟨h.1, (h.2 (by decide)).2.1⟩

/- ── Per-adapter category/library membership (C2) ───────────────────── -/

theorem tabler_map_values :
    ∀ v ∈ TABLER_CATEGORY_MAP.map Prod.snd, v ∈ CATEGORIES.map (fun c => c.id) := by decide

theorem phosphor_map_values :
    ∀ v ∈ PHOSPHOR_CATEGORY_MAP.map Prod.snd, v ∈ CATEGORIES.map (fun c => c.id) := by decide

theorem remix_map_values :
    ∀ v ∈ REMIX_CATEGORY_MAP.map Prod.snd, v ∈ CATEGORIES.map (fun c => c.id) := by decide

theorem mdi_map_values :
    ∀ v ∈ MDI_CATEGORY_MAP.map Prod.snd, v ∈ CATEGORIES.map (fun c => c.id) := by decide

theorem iconpark_map_values :
    ∀ v ∈ ICONPARK_CATEGORY_MAP.map Prod.snd, v ∈ CATEGORIES.map (fun c => c.id) := by decide

theorem misc_good : GoodCat (JsVal.str "misc") :=
  Or.inl ⟨"misc", misc_mem, rfl⟩

/-- A truthy dictionary read out of a map whose values are category ids is
a good category value. -/
theorem jsValOr_jsGet_good {m : List (String × String)}
    (hm : ∀ v ∈ m.map Prod.snd, v ∈ CATEGORIES.map (fun c => c.id))
    {y : JsVal} (hy : GoodCat y) (k : String) :
    GoodCat (jsValOr (jsGet m k) y) := by
  cases h1 : m.lookup k with
  | some v =>
    rw [jsGet_own h1]
    by_cases hv0 : v = ""
    · subst hv0; simp only [jsValOr, jsTruthy]; simpa using hy
    · have hb : (v == "") = false := beq_eq_false_iff_ne.mpr hv0
      simp only [jsValOr, jsTruthy, hb, Bool.not_false, if_pos]
      exact Or.inl ⟨v, hm v (lookup_mem_values h1), rfl⟩
  | none =>
    by_cases h2 : k ∈ OBJ_PROTO_KEYS
    · rw [jsGet_inherited h1 h2]
      simp only [jsValOr, jsTruthy, if_pos]
      exact Or.inr ⟨k, h2, rfl⟩
    · rw [jsGet_absent h1 h2]
      exact hy

/-- A successful `if (MAP[k])` probe out of a map whose values are category
ids yields a good category value. -/
theorem jsGetTruthy_good {m : List (String × String)}
    (hm : ∀ v ∈ m.map Prod.snd, v ∈ CATEGORIES.map (fun c => c.id))
    {k : String} {v : JsVal} (h : jsGetTruthy m k = some v) : GoodCat v := by
  unfold jsGetTruthy at h
  cases h1 : jsGet m k with
  | none => rw [h1] at h; exact absurd h (by simp)
  | some w =>
    rw [h1] at h
    have h' : (if jsTruthy w = true then some w else none) = some v := h
    by_cases hw : jsTruthy w = true
    · rw [if_pos hw, Option.some_inj] at h'
      subst h'
      unfold jsGet at h1
      cases h2 : m.lookup k with
      | some s =>
        rw [h2] at h1
        have h1' : JsVal.str s = w := Option.some_inj.mp h1
        exact Or.inl ⟨s, hm s (lookup_mem_values h2), h1'.symm⟩
      | none =>
        rw [h2] at h1
        have h1' : (if k ∈ OBJ_PROTO_KEYS then some (JsVal.inherited k) else none) =
            some w := h1
        by_cases h3 : k ∈ OBJ_PROTO_KEYS
        · rw [if_pos h3, Option.some_inj] at h1'
          exact Or.inr ⟨k, h3, h1'.symm⟩
        · rw [if_neg h3] at h1'; exact absurd h1' (by simp)
    · rw [if_neg hw] at h'; exact absurd h' (by simp)

/-- The first-truthy-map-hit loops of the Phosphor and MDI adapters yield a
good category value (default `misc`). -/
theorem findSome_jsGetTruthy_good {m : List (String × String)}
    (hm : ∀ v ∈ m.map Prod.snd, v ∈ CATEGORIES.map (fun c => c.id))
    (cats : List String) :
    GoodCat ((cats.findSome? (jsGetTruthy m)).getD (JsVal.str "misc")) := by
  cases h : cats.findSome? (jsGetTruthy m) with
  | none => simpa using misc_good
  | some v =>
    obtain ⟨a, _, hfa⟩ := List.exists_of_findSome?_eq_some h
    simpa using jsGetTruthy_good hm hfa

theorem processLucide_good (o : Option LucideData) :
    ∀ i ∈ processLucide o, GoodCat i.category ∧ i.library = "lucide" := by
  intro i hi
  cases o with
  | none => simp [processLucide] at hi
  | some d =>
    simp only [processLucide, List.mem_map] at hi
    obtain ⟨file, _, rfl⟩ := hi
    exact ⟨categorize_good _ _, rfl⟩

theorem tablerIcon_good (d : TablerData) (lookupT : List (String × String))
    (styleDir file : String) :
    GoodCat (tablerIcon d lookupT styleDir file).category ∧
    (tablerIcon d lookupT styleDir file).library = "tabler" := by
  refine ⟨?_, by simp [tablerIcon]⟩
  simp only [tablerIcon, jsGetV]
  exact jsValOr_jsGet_good tabler_map_values (categorize_good _ _) _

theorem processTabler_good (o : Option TablerData) :
    ∀ i ∈ processTabler o, GoodCat i.category ∧ i.library = "tabler" := by
  intro i hi
  cases o with
  | none => simp [processTabler] at hi
  | some d =>
    simp only [processTabler, List.mem_append, List.mem_map] at hi
    rcases hi with ⟨file, _, rfl⟩ | ⟨file, _, rfl⟩ <;> exact tablerIcon_good _ _ _ _

theorem heroIcon_good (styleDir file : String) :
    GoodCat (heroIcon styleDir file).category ∧
    (heroIcon styleDir file).library = "heroicons" := by
  refine ⟨?_, by simp [heroIcon]⟩
  simp only [heroIcon]
  exact categorize_good _ _

theorem processHeroicons_good (o : Option HeroData) :
    ∀ i ∈ processHeroicons o, GoodCat i.category ∧ i.library = "heroicons" := by
  intro i hi
  cases o with
  | none => simp [processHeroicons] at hi
  | some d =>
    simp only [processHeroicons, List.mem_append, List.mem_map] at hi
    rcases hi with ⟨file, _, rfl⟩ | ⟨file, _, rfl⟩ <;> exact heroIcon_good _ _

theorem phosphorCategory_good (cats tags : List String) (name : String) :
    GoodCat (phosphorCategory cats tags name) := by
  simp only [phosphorCategory]
  split
  · exact categorize_good _ _
  · exact findSome_jsGetTruthy_good phosphor_map_values _

theorem phosphorIcon_good (d : PhosphorData) (dirName typeName sfx file : String) :
    GoodCat (phosphorIcon d dirName typeName sfx file).category ∧
    (phosphorIcon d dirName typeName sfx file).library = "phosphor" := by
  refine ⟨?_, by simp [phosphorIcon]⟩
  simp only [phosphorIcon]
  exact phosphorCategory_good _ _ _

theorem phosphorStyleIcons_good (d : PhosphorData) (dirFiles : Option (List String))
    (dirName typeName sfx : String) :
    ∀ i ∈ phosphorStyleIcons d dirFiles dirName typeName sfx,
      GoodCat i.category ∧ i.library = "phosphor" := by
  intro i hi
  cases dirFiles with
  | none => simp [phosphorStyleIcons] at hi
  | some files =>
    simp only [phosphorStyleIcons, List.mem_map] at hi
    obtain ⟨file, _, rfl⟩ := hi
    exact phosphorIcon_good _ _ _ _ _

theorem processPhosphor_good (o : Option PhosphorData) :
    ∀ i ∈ processPhosphor o, GoodCat i.category ∧ i.library = "phosphor" := by
  intro i hi
  cases o with
  | none => simp [processPhosphor] at hi
  | some d =>
    simp only [processPhosphor, List.mem_append] at hi
    rcases hi with (hi | hi) | hi <;> exact phosphorStyleIcons_good _ _ _ _ _ i hi

theorem processBootstrap_good (o : Option (List String)) :
    ∀ i ∈ processBootstrap o, GoodCat i.category ∧ i.library = "bootstrap" := by
  intro i hi
  cases o with
  | none => simp [processBootstrap] at hi
  | some files =>
    simp only [processBootstrap, List.mem_append, List.mem_map] at hi
    rcases hi with ⟨file, _, rfl⟩ | ⟨file, _, rfl⟩
    · refine ⟨?_, by simp [bootstrapOutlineIcon]⟩
      simp only [bootstrapOutlineIcon]
      exact categorize_good _ _
    · refine ⟨?_, by simp [bootstrapFilledIcon]⟩
      simp only [bootstrapFilledIcon]
      exact categorize_good _ _

theorem iconoirIcon_good (styleDir typeName file : String) :
    GoodCat (iconoirIcon styleDir typeName file).category ∧
    (iconoirIcon styleDir typeName file).library = "iconoir" := by
  refine ⟨?_, by simp [iconoirIcon]⟩
  simp only [iconoirIcon]
  exact categorize_good _ _

theorem processIconoir_good (o : Option IconoirData) :
    ∀ i ∈ processIconoir o, GoodCat i.category ∧ i.library = "iconoir" := by
  intro i hi
  cases o with
  | none => simp [processIconoir] at hi
  | some d =>
    simp only [processIconoir, List.mem_append, List.mem_map] at hi
    rcases hi with ⟨file, _, rfl⟩ | hi
    · exact iconoirIcon_good _ _ _
    · cases hsolid : d.solid with
      | none => rw [hsolid] at hi; simp at hi
      | some solidFiles =>
        rw [hsolid] at hi
        simp only [List.mem_map] at hi
        obtain ⟨file, _, rfl⟩ := hi
        exact iconoirIcon_good _ _ _

theorem remixIcon_good (ourCategory : JsVal)
    (hcat : GoodCat ourCategory) (file : String) :
    GoodCat (remixIcon ourCategory file).category ∧
    (remixIcon ourCategory file).library = "remix" := by
  refine ⟨?_, by simp [remixIcon]⟩
  simp only [remixIcon]
  exact hcat

theorem processRemixIcon_good (o : Option (List (String × List String))) :
    ∀ i ∈ processRemixIcon o, GoodCat i.category ∧ i.library = "remix" := by
  intro i hi
  cases o with
  | none => simp [processRemixIcon] at hi
  | some categoryDirs =>
    simp only [processRemixIcon, List.mem_flatMap, List.mem_map] at hi
    obtain ⟨p, _, file, _, rfl⟩ := hi
    exact remixIcon_good _ (jsValOr_jsGet_good remix_map_values misc_good _) _

theorem fluentIcon_good (styleDir sfx file : String) :
    GoodCat (fluentIcon styleDir sfx file).category ∧
    (fluentIcon styleDir sfx file).library = "fluent" := by
  refine ⟨?_, by simp [fluentIcon]⟩
  simp only [fluentIcon]
  exact categorize_good _ _

theorem processFluent_good (o : Option (List String)) :
    ∀ i ∈ processFluent o, GoodCat i.category ∧ i.library = "fluent" := by
  intro i hi
  cases o with
  | none => simp [processFluent] at hi
  | some files =>
    simp only [processFluent, List.mem_append, List.mem_map] at hi
    rcases hi with ⟨file, _, rfl⟩ | ⟨file, _, rfl⟩ <;> exact fluentIcon_good _ _ _

theorem mdiCategory_good (entry : Option MdiEntry) (baseName : String) :
    GoodCat (mdiCategory entry baseName) := by
  simp only [mdiCategory]
  split
  · exact categorize_good _ _
  · split
    · rename_i e _
      split
      · exact findSome_jsGetTruthy_good mdi_map_values _
      · exact misc_good
    · exact misc_good

theorem mdiIconOfFile_good (d : MdiData) (file : String) :
    ∀ i, mdiIconOfFile d file = some i → GoodCat i.category ∧ i.library = "mdi" := by
  intro i hf
  simp only [mdiIconOfFile] at hf
  split at hf
  · exact absurd hf (by simp)
  · rw [Option.some_inj] at hf
    subst hf
    exact ⟨mdiCategory_good _ _, rfl⟩

theorem processMdi_good (o : Option MdiData) :
    ∀ i ∈ processMdi o, GoodCat i.category ∧ i.library = "mdi" := by
  intro i hi
  cases o with
  | none => simp [processMdi] at hi
  | some d =>
    simp only [processMdi, List.mem_filterMap] at hi
    obtain ⟨file, _, hf⟩ := hi
    exact mdiIconOfFile_good d file i hf

theorem ioniconsRecord_good (td : String × String) :
    GoodCat (ioniconsRecord td).category ∧
    (ioniconsRecord td).library = "ionicons" := by
  refine ⟨?_, by simp [ioniconsRecord]⟩
  simp only [ioniconsRecord]
  exact categorize_good _ _

theorem ioniconsIconOfFile_good (file : String) :
    ∀ i, ioniconsIconOfFile file = some i → GoodCat i.category ∧ i.library = "ionicons" := by
  intro i hf
  simp only [ioniconsIconOfFile] at hf
  split at hf
  · exact absurd hf (by simp)
  · rw [Option.some_inj] at hf
    subst hf
    exact ioniconsRecord_good _

theorem processIonicons_good (o : Option (List String)) :
    ∀ i ∈ processIonicons o, GoodCat i.category ∧ i.library = "ionicons" := by
  intro i hi
  cases o with
  | none => simp [processIonicons] at hi
  | some files =>
    simp only [processIonicons, List.mem_filterMap] at hi
    obtain ⟨file, _, hf⟩ := hi
    exact ioniconsIconOfFile_good file i hf

theorem iconParkIcon_good (name : String) (category : JsVal) (typeName : String)
    (hcat : GoodCat category) :
    GoodCat (iconParkIcon name category typeName).category ∧
    (iconParkIcon name category typeName).library = "iconpark" := by
  refine ⟨?_, by simp [iconParkIcon]⟩
  simp only [iconParkIcon]
  exact hcat

theorem processIconPark_good (o : Option (List IconParkEntry)) :
    ∀ i ∈ processIconPark o, GoodCat i.category ∧ i.library = "iconpark" := by
  intro i hi
  cases o with
  | none => simp [processIconPark] at hi
  | some metas =>
    simp only [processIconPark, List.mem_flatMap] at hi
    obtain ⟨m, _, hm⟩ := hi
    have hcat : GoodCat (jsValOr (jsGet ICONPARK_CATEGORY_MAP m.category) (JsVal.str "misc")) :=
      jsValOr_jsGet_good iconpark_map_values misc_good _
    split at hm
    · simp at hm
    · simp only [List.mem_append] at hm
      rcases hm with hm | hm
      · split at hm
        · rw [List.mem_singleton] at hm
          subst hm
          exact iconParkIcon_good _ _ _ hcat
        · simp at hm
      · split at hm
        · rw [List.mem_singleton] at hm
          subst hm
          exact iconParkIcon_good _ _ _ hcat
        · simp at hm

/-- Every icon produced by the pipeline has a good category value (a
category id string, or an inherited `Object.prototype` member) and a
library among the eleven library ids. -/
theorem allIcons_good (inp : PipelineInput) :
    ∀ i ∈ allIconsOf inp,
      GoodCat i.category ∧
      i.library ∈ (["lucide", "tabler", "heroicons", "phosphor", "bootstrap", "iconoir",
        "remix", "fluent", "mdi", "ionicons", "iconpark"] : List String) := by
  intro i hi
  simp only [allIconsOf, List.mem_append] at hi
  rcases hi with ((((((((((hi | hi) | hi) | hi) | hi) | hi) | hi) | hi) | hi) | hi) | hi)
  · have h := processLucide_good _ i hi; exact ⟨h.1, by rw [h.2]; simp⟩
  · have h := processTabler_good _ i hi; exact ⟨h.1, by rw [h.2]; simp⟩
  · have h := processHeroicons_good _ i hi; exact ⟨h.1, by rw [h.2]; simp⟩
  · have h := processPhosphor_good _ i hi; exact ⟨h.1, by rw [h.2]; simp⟩
  · have h := processBootstrap_good _ i hi; exact ⟨h.1, by rw [h.2]; simp⟩
  · have h := processIconoir_good _ i hi; exact ⟨h.1, by rw [h.2]; simp⟩
  · have h := processRemixIcon_good _ i hi; exact ⟨h.1, by rw [h.2]; simp⟩
  · have h := processFluent_good _ i hi; exact ⟨h.1, by rw [h.2]; simp⟩
  · have h := processMdi_good _ i hi; exact ⟨h.1, by rw [h.2]; simp⟩
  · have h := processIonicons_good _ i hi; exact ⟨h.1, by rw [h.2]; simp⟩
  · have h := processIconPark_good _ i hi; exact ⟨h.1, by rw [h.2]; simp⟩

/-- Claim C2 counterexample: a heroicons source directory holding a file
`constructor.svg` completes the run (no MDI input) and yields a manifest
whose single icon carries the inherited `Object.prototype.constructor` as
its category, which is not the id of any of the manifest's categories (the
serialized icon simply has no `category` field, since `JSON.stringify`
omits function values). -/
theorem manifest_invariant_counterexample :
    pipelineThrows ⟨none, none, some ⟨["constructor.svg"], []⟩, none, none, none,
        none, none, none, none, none⟩ = false ∧
    ∃ i ∈ (buildManifest ⟨none, none, some ⟨["constructor.svg"], []⟩, none, none, none,
        none, none, none, none, none⟩ "2025-01-01T00:00:00.000Z").icons,
      i.category ∉ (buildManifest ⟨none, none, some ⟨["constructor.svg"], []⟩, none, none,
        none, none, none, none, none, none⟩
          "2025-01-01T00:00:00.000Z").categories.map (fun c => JsVal.str c.id) := by
  decide

/-- Claim C2 (amended): in every manifest produced by a run that completes,
each icon's `library` is the id of one of the manifest's libraries, and
each icon's `category` is either the id of one of the manifest's categories
(as a string value) or an inherited `Object.prototype` member picked up by
a dictionary read on a colliding name, in which case the serialized icon
carries no category field at all. -/
theorem manifest_invariant_amended (inp : PipelineInput) (now : String)
    (_hok : pipelineThrows inp = false) :
    ∀ i ∈ (buildManifest inp now).icons,
      i.library ∈ (buildManifest inp now).libraries.map (fun l => l.id) ∧
      (i.category ∈ (buildManifest inp now).categories.map (fun c => JsVal.str c.id) ∨
       ∃ m ∈ OBJ_PROTO_KEYS, i.category = JsVal.inherited m) := by
  intro i hi
  have h := allIcons_good inp i hi
  constructor
  · have hlibs : (buildManifest inp now).libraries.map (fun l => l.id) =
        (["lucide", "tabler", "heroicons", "phosphor", "bootstrap", "iconoir",
          "remix", "fluent", "mdi", "ionicons", "iconpark"] : List String) := rfl
    rw [hlibs]
    exact h.2
  · have hcats : (buildManifest inp now).categories.map (fun c => JsVal.str c.id) =
        (CATEGORIES.map (fun c => c.id)).map JsVal.str := by
      simp [buildManifest, List.map_map]
    rw [hcats]
    rcases h.1 with ⟨c, hc, hic⟩ | hinh
    · exact Or.inl (List.mem_map.mpr ⟨c, hc, hic.symm⟩)
    · exact Or.inr hinh

/-- Witness for C2 (amended) at a concrete one-icon pipeline input (only
lucide installed, with a single `arrow.svg` file; the run completes). -/
theorem manifest_invariant_amended_witness :
    ({ id := "lucide/arrow", name := "Arrow", library := "lucide",
       category := JsVal.str "arrows", type := "outline", tags := [] } : Icon).library ∈
      (buildManifest ⟨some ⟨["arrow.svg"], []⟩, none, none, none, none, none, none, none,
        none, none, none⟩ "2025-01-01T00:00:00.000Z").libraries.map (fun l => l.id) ∧
    (({ id := "lucide/arrow", name := "Arrow", library := "lucide",
        category := JsVal.str "arrows", type := "outline", tags := [] } : Icon).category ∈
      (buildManifest ⟨some ⟨["arrow.svg"], []⟩, none, none, none, none, none, none, none,
        none, none, none⟩ "2025-01-01T00:00:00.000Z").categories.map (fun c => JsVal.str c.id) ∨
     ∃ m ∈ OBJ_PROTO_KEYS,
       ({ id := "lucide/arrow", name := "Arrow", library := "lucide",
          category := JsVal.str "arrows", type := "outline", tags := [] } : Icon).category =
         JsVal.inherited m) :=
  manifest_invariant_amended
    ⟨some ⟨["arrow.svg"], []⟩, none, none, none, none, none, none, none, none, none, none⟩
    "2025-01-01T00:00:00.000Z" rfl
    { id := "lucide/arrow", name := "Arrow", library := "lucide",
      category := JsVal.str "arrows", type := "outline", tags := [] }
    (by decide)

/-- Claim C8: a missing source directory makes each adapter return the empty icon
sequence, and the pipeline run continues past it: the manifest is still
assembled from the remaining adapters' outputs, with all 11 library
entries and all 20 category entries present. -/
theorem adapters_tolerate_missing :
    (processLucide none = [] ∧ processTabler none = [] ∧ processHeroicons none = [] ∧
     processPhosphor none = [] ∧ processBootstrap none = [] ∧ processIconoir none = [] ∧
     processRemixIcon none = [] ∧ processFluent none = [] ∧ processMdi none = [] ∧
     processIonicons none = [] ∧ processIconPark none = []) ∧
    ∀ (inp : PipelineInput) (now : String),
      (buildManifest inp now).icons =
        processLucide inp.lucide ++ processTabler inp.tabler ++
        processHeroicons inp.heroicons ++ processPhosphor inp.phosphor ++
        processBootstrap inp.bootstrap ++ processIconoir inp.iconoir ++
        processRemixIcon inp.remix ++ processFluent inp.fluent ++ processMdi inp.mdi ++
        processIonicons inp.ionicons ++ processIconPark inp.iconpark ∧
      (buildManifest inp now).libraries.length = 11 ∧
      (buildManifest inp now).categories.length = 20 :=
  ⟨⟨rfl, rfl, rfl, rfl, rfl, rfl, rfl, rfl, rfl, rfl, rfl⟩,
    fun _ _ => ⟨rfl, rfl, rfl⟩⟩

/- ── Count-sum lemmas (C9) ──────────────────────────────────────────── -/

theorem lookup_cons_getD (k' k0 : String) (n0 : Nat) (rest : List (String × Nat)) :
    ((((k0, n0) :: rest)).lookup k').getD 0 =
      if k' = k0 then n0 else ((rest.lookup k')).getD 0 := by
  by_cases h : k' = k0
  · subst h; simp [List.lookup]
  · have hb : (k' == k0) = false := beq_eq_false_iff_ne.mpr h
    simp [List.lookup, hb, h]

theorem bump_lookup (k k' : String) (m : List (String × Nat)) :
    ((bump k m).lookup k').getD 0 = (m.lookup k').getD 0 + (if k' = k then 1 else 0) := by
  induction m with
  | nil =>
    rw [show bump k [] = [(k, 1)] from rfl, lookup_cons_getD]
    by_cases h : k' = k <;> simp [h]
  | cons p rest ih =>
    obtain ⟨k0, n0⟩ := p
    by_cases hk : k = k0
    · subst hk
      rw [show bump k ((k, n0) :: rest) = (k, n0 + 1) :: rest from by simp [bump],
        lookup_cons_getD, lookup_cons_getD]
      by_cases h' : k' = k <;> simp [h']
    · rw [show bump k ((k0, n0) :: rest) = (k0, n0) :: bump k rest from by simp [bump, hk],
        lookup_cons_getD, lookup_cons_getD, ih]
      by_cases h' : k' = k0
      · subst h'
        have : ¬ k' = k := fun hc => hk hc.symm
        simp [this]
      · simp [h']

theorem foldl_bump_lookup (keys : List String) (m : List (String × Nat)) (k : String) :
    ((keys.foldl (fun m k => bump k m) m).lookup k).getD 0 =
      (m.lookup k).getD 0 + keys.count k := by
  induction keys generalizing m with
  | nil => simp
  | cons k0 rest ih =>
    have hif : (if (k0 == k) = true then 1 else 0) = (if k = k0 then 1 else 0) := by
      by_cases h : k = k0
      · subst h; simp
      · have hb : (k0 == k) = false := by
          simp [beq_iff_eq]
          exact fun hc => h hc.symm
        simp [hb, h]
    rw [List.foldl_cons, ih, bump_lookup, List.count_cons, hif]
    omega

theorem statsFold_lookup (keys : List String) (k : String) :
    ((statsFold keys).lookup k).getD 0 = keys.count k := by
  have h := foldl_bump_lookup keys [] k
  simpa [statsFold] using h

theorem sum_map_add (f g : String → Nat) (keys : List String) :
    (keys.map (fun k => f k + g k)).sum = (keys.map f).sum + (keys.map g).sum := by
  induction keys with
  | nil => simp
  | cons k rest ih => simp [ih]; omega

theorem sum_indicator (keys : List String) (x : String) :
    (keys.map (fun k => if x = k then 1 else 0)).sum = keys.count x := by
  induction keys with
  | nil => simp
  | cons k rest ih =>
    rw [List.map_cons, List.sum_cons, ih, List.count_cons]
    have hif : (if (k == x) = true then 1 else 0) = (if x = k then 1 else 0) := by
      by_cases h : x = k
      · subst h; simp
      · have hb : (k == x) = false := beq_eq_false_iff_ne.mpr (fun hc => h hc.symm)
        simp [hb, h]
    rw [hif]
    omega

theorem sum_count_of_mem (keys l : List String) (hnd : keys.Nodup)
    (hmem : ∀ x ∈ l, x ∈ keys) :
    (keys.map (fun k => l.count k)).sum = l.length := by
  induction l with
  | nil => simp
  | cons x l' ih =>
    have hx : keys.count x = 1 := by
      have h1 : keys.count x ≤ 1 := List.nodup_iff_count_le_one.mp hnd x
      have h2 : 0 < keys.count x := List.count_pos_iff.mpr (hmem x (by simp))
      omega
    have hstep : (keys.map (fun k => (x :: l').count k)).sum =
        (keys.map (fun k => l'.count k + (if x = k then 1 else 0))).sum := by
      congr 1
      refine List.map_congr_left ?_
      intro k _
      rw [List.count_cons]
      have hif : (if (x == k) = true then 1 else 0) = (if x = k then 1 else 0) := by
        by_cases h : x = k
        · subst h; simp
        · have hb : (x == k) = false := beq_eq_false_iff_ne.mpr h
          simp [hb, h]
      rw [hif]
    rw [hstep, sum_map_add, sum_indicator, hx,
      ih (fun y hy => hmem y (List.mem_cons_of_mem _ hy))]
    simp

/-- Summing the per-key counts over a duplicate-free key list tallies
exactly the elements that lie in the key list. -/
theorem sum_count_filter (keys l : List String) (hnd : keys.Nodup) :
    (keys.map (fun k => l.count k)).sum = (l.filter (fun x => decide (x ∈ keys))).length := by
  induction l with
  | nil => simp
  | cons x l' ih =>
    have hstep : (keys.map (fun k => (x :: l').count k)).sum =
        (keys.map (fun k => l'.count k + (if x = k then 1 else 0))).sum := by
      congr 1
      refine List.map_congr_left ?_
      intro k _
      rw [List.count_cons]
      have hif : (if (x == k) = true then 1 else 0) = (if x = k then 1 else 0) := by
        by_cases h : x = k
        · subst h; simp
        · have hb : (x == k) = false := beq_eq_false_iff_ne.mpr h
          simp [hb, h]
      rw [hif]
    rw [hstep, sum_map_add, sum_indicator, ih]
    by_cases hx : x ∈ keys
    · have hc : keys.count x = 1 := by
        have h1 : keys.count x ≤ 1 := List.nodup_iff_count_le_one.mp hnd x
        have h2 : 0 < keys.count x := List.count_pos_iff.mpr hx
        omega
      rw [List.filter_cons]
      simp [hx, hc]
    · have hc : keys.count x = 0 := List.count_eq_zero.mpr hx
      rw [List.filter_cons]
      simp [hx, hc]

/-- Filtering a mapped list by `p` tallies the same elements as filtering
the original list by `p` after the map. -/
theorem length_filter_of_map (f : Icon → String) (p : String → Bool) (l : List Icon) :
    ((l.map f).filter p).length = (l.filter (fun i => p (f i))).length := by
  induction l with
  | nil => rfl
  | cons x xs ih =>
    rw [List.map_cons, List.filter_cons, List.filter_cons]
    by_cases h : p (f x) = true
    · rw [if_pos h, if_pos h, List.length_cons, List.length_cons, ih]
    · rw [if_neg h, if_neg h, ih]

/-- The coerced property key of an inherited `Object.prototype` member is
never one of the twenty category ids. -/
theorem proto_key_not_id :
    ∀ m ∈ OBJ_PROTO_KEYS,
      jsKeyStr (JsVal.inherited m) ∉ CATEGORIES.map (fun c => c.id) := by decide

/-- Claim C9 counterexample: the completed run over a heroicons directory
holding only `constructor.svg` produces a manifest whose per-category
counts sum to 0 while it contains one icon: that icon is tallied under the
coerced key of the inherited member, which is no category id. -/
theorem manifest_counts_sum_counterexample :
    pipelineThrows ⟨none, none, some ⟨["constructor.svg"], []⟩, none, none, none,
        none, none, none, none, none⟩ = false ∧
    ¬ (((buildManifest ⟨none, none, some ⟨["constructor.svg"], []⟩, none, none, none,
          none, none, none, none, none⟩ "2025-01-01T00:00:00.000Z").categories.map
            (fun c => c.count)).sum =
        (buildManifest ⟨none, none, some ⟨["constructor.svg"], []⟩, none, none, none,
          none, none, none, none, none⟩ "2025-01-01T00:00:00.000Z").icons.length) := by
  decide

/-- Claim C9 (amended): in every manifest produced by a run that completes,
the per-library counts sum to the total icon count, and the per-category
counts sum to the number of icons whose category is a string (always one of
the twenty ids) — that is, to the total minus the number of icons whose
category is an inherited `Object.prototype` member. -/
theorem manifest_counts_sum_amended (inp : PipelineInput) (now : String)
    (_hok : pipelineThrows inp = false) :
    ((buildManifest inp now).libraries.map (fun l => l.iconCount)).sum =
      (buildManifest inp now).icons.length ∧
    ((buildManifest inp now).categories.map (fun c => c.count)).sum =
      ((buildManifest inp now).icons.filter (fun i => jsValIsStr i.category)).length := by
  have hicons : (buildManifest inp now).icons = allIconsOf inp := rfl
  constructor
  · have h1 : (buildManifest inp now).libraries.map (fun l => l.iconCount) =
        (["lucide", "tabler", "heroicons", "phosphor", "bootstrap", "iconoir",
          "remix", "fluent", "mdi", "ionicons", "iconpark"] : List String).map
          (fun k => ((libraryStatsOf (allIconsOf inp)).lookup k).getD 0) := by
      simp [buildManifest, librariesOf]
    rw [h1, hicons]
    have h2 : ∀ k, ((libraryStatsOf (allIconsOf inp)).lookup k).getD 0 =
        ((allIconsOf inp).map (fun i => i.library)).count k := by
      intro k; exact statsFold_lookup _ k
    rw [List.map_congr_left (fun k _ => h2 k)]
    rw [sum_count_of_mem _ _ (by decide) ?hmem, List.length_map]
    case hmem =>
      intro x hx
      rw [List.mem_map] at hx
      obtain ⟨i, hi, rfl⟩ := hx
      exact (allIcons_good inp i hi).2
  · have h1 : (buildManifest inp now).categories.map (fun c => c.count) =
        (CATEGORIES.map (fun c => c.id)).map
          (fun k => ((categoryStatsOf (allIconsOf inp)).lookup k).getD 0) := by
      simp [buildManifest, List.map_map]
    rw [h1, hicons]
    have h2 : ∀ k, ((categoryStatsOf (allIconsOf inp)).lookup k).getD 0 =
        ((allIconsOf inp).map (fun i => jsKeyStr i.category)).count k := by
      intro k; exact statsFold_lookup _ k
    rw [List.map_congr_left (fun k _ => h2 k)]
    rw [sum_count_filter _ _ (by decide), length_filter_of_map]
    have hsame : ∀ i ∈ allIconsOf inp,
        (decide (jsKeyStr i.category ∈ CATEGORIES.map (fun c => c.id)) = true ↔
          jsValIsStr i.category = true) := by
      intro i hi
      rcases (allIcons_good inp i hi).1 with ⟨c, hc, hic⟩ | ⟨m, hm, him⟩
      · rw [hic]
        simp only [jsKeyStr, jsValIsStr]
        simp [hc]
      · rw [him]
        simp only [jsValIsStr]
        simp [proto_key_not_id m hm]
    rw [← List.countP_eq_length_filter, ← List.countP_eq_length_filter]
    exact List.countP_congr hsame

/-- Witness for C9 (amended) at a concrete one-icon pipeline input (only
lucide installed, with a single `arrow.svg` file; the run completes). -/
theorem manifest_counts_sum_amended_witness :
    ((buildManifest ⟨some ⟨["arrow.svg"], []⟩, none, none, none, none, none, none, none,
        none, none, none⟩ "2025-01-01T00:00:00.000Z").libraries.map
          (fun l => l.iconCount)).sum =
      (buildManifest ⟨some ⟨["arrow.svg"], []⟩, none, none, none, none, none, none, none,
        none, none, none⟩ "2025-01-01T00:00:00.000Z").icons.length ∧
    ((buildManifest ⟨some ⟨["arrow.svg"], []⟩, none, none, none, none, none, none, none,
        none, none, none⟩ "2025-01-01T00:00:00.000Z").categories.map
          (fun c => c.count)).sum =
      ((buildManifest ⟨some ⟨["arrow.svg"], []⟩, none, none, none, none, none, none, none,
        none, none, none⟩ "2025-01-01T00:00:00.000Z").icons.filter
          (fun i => jsValIsStr i.category)).length :=
  manifest_counts_sum_amended
    ⟨some ⟨["arrow.svg"], []⟩, none, none, none, none, none, none, none, none, none, none⟩
    "2025-01-01T00:00:00.000Z" rfl

/-- Claim C5 counterexample: two runs over identical inputs but different clock
readings produce different `manifest.json` contents, because the manifest
embeds the `generated` timestamp. -/
theorem pipeline_determinism_counterexample :
    buildManifest ⟨none, none, none, none, none, none, none, none, none, none, none⟩
        "2025-01-01T00:00:00.000Z" ≠
      buildManifest ⟨none, none, none, none, none, none, none, none, none, none, none⟩
        "2025-01-01T00:00:00.001Z" := by
  intro h
  have hg := congrArg Manifest.generated h
  simp [buildManifest] at hg

/-- Claim C5 (amended): the adapters and the manifest builder are deterministic
functions of the source data and the clock reading; over identical inputs,
`libraries.json` and `report.json` are identical, and `manifest.json`
differs at most in the `generated` timestamp field. -/
theorem pipeline_determinism_amended (inp : PipelineInput) (t1 t2 : String) :
    buildLibrariesDoc inp t1 = buildLibrariesDoc inp t2 ∧
    buildReport inp = buildReport inp ∧
    { buildManifest inp t1 with generated := "" } =
      { buildManifest inp t2 with generated := "" } :=
  ⟨rfl, rfl, rfl⟩

/- ── Worker-pool lemmas (C7) ────────────────────────────────────────── -/

theorem find_filter_count (w : Nat) (q : Nat → Bool) :
    ∀ (running : List (Nat × Nat)), (running.map Prod.fst).Nodup →
      ∀ pr, running.find? (fun p => p.1 == w) = some pr →
        ((running.filter (fun p => p.1 != w)).map Prod.snd).countP q +
            (if q pr.2 then 1 else 0) =
          (running.map Prod.snd).countP q := by
  intro running
  induction running with
  | nil => intro _ pr h; simp at h
  | cons hd tl ih =>
    intro hnd pr hf
    obtain ⟨w0, i0⟩ := hd
    have hnd' : (tl.map Prod.fst).Nodup := (List.nodup_cons.mp (by simpa using hnd)).2
    by_cases hw : w0 = w
    · subst hw
      rw [List.find?_cons_of_pos _ (by simp)] at hf
      rw [Option.some_inj] at hf
      subst hf
      rw [List.filter_cons_of_neg (by simp)]
      have hnotin : w0 ∉ tl.map Prod.fst := (List.nodup_cons.mp (by simpa using hnd)).1
      have hkeep : tl.filter (fun p => p.1 != w0) = tl :=
        List.filter_eq_self.mpr (fun p hp => by
          have hne : p.1 ≠ w0 := fun hc => hnotin (hc ▸ List.mem_map_of_mem Prod.fst hp)
          simpa [bne_iff_ne] using hne)
      rw [hkeep]
      simp only [List.map_cons, List.countP_cons]
    · rw [List.find?_cons_of_neg _ (by simp [hw])] at hf
      rw [List.filter_cons_of_pos (by simp [hw])]
      simp only [List.map_cons, List.countP_cons]
      have := ih hnd' pr hf
      omega

theorem poolStep_inv {wCount : Nat} {outcomes : List Bool} {s s' : PoolState} {e : PoolEvent}
    (hinv : PoolInv outcomes s) (hstep : poolStep wCount outcomes s e = some s') :
    PoolInv outcomes s' := by
  obtain ⟨hlen, hlog, hnd, hcomp, hfail⟩ := hinv
  cases e with
  | claim w =>
    simp only [poolStep] at hstep
    split at hstep
    · rename_i hcond
      obtain ⟨hw, hall, hidx⟩ := hcond
      rw [Option.some_inj] at hstep
      subst hstep
      refine ⟨by simpa using hidx, ?_, ?_, ?_, ?_⟩
      · simp [hlog, List.range_succ]
      · rw [List.map_cons, List.nodup_cons]
        refine ⟨?_, hnd⟩
        intro hmem
        rw [List.mem_map] at hmem
        obtain ⟨p, hp, hpe⟩ := hmem
        have hb := List.all_eq_true.mp hall p hp
        rw [bne_iff_ne] at hb
        exact hb hpe
      · rw [List.map_cons, List.countP_cons, List.range_succ, List.countP_append]
        simp only [List.countP_cons, List.countP_nil]
        omega
      · rw [List.map_cons, List.countP_cons, List.range_succ, List.countP_append]
        simp only [List.countP_cons, List.countP_nil]
        omega
    · exact absurd hstep (by simp)
  | finish w =>
    simp only [poolStep] at hstep
    cases hf : s.running.find? (fun p => p.1 == w) with
    | none => rw [hf] at hstep; exact absurd hstep (by simp)
    | some pr =>
      rw [hf] at hstep
      rw [Option.some_inj] at hstep
      subst hstep
      have h1 := find_filter_count w (fun i => outcomes.getD i false) s.running hnd pr hf
      have h2 := find_filter_count w (fun i => ! outcomes.getD i false) s.running hnd pr hf
      refine ⟨hlen, hlog,
        List.Nodup.sublist (List.Sublist.map _ (List.filter_sublist _)) hnd, ?_, ?_⟩
      · simp only at h1 ⊢
        omega
      · have hδ : (if outcomes.getD pr.2 false then 0 else 1) =
            (if (! outcomes.getD pr.2 false) = true then 1 else 0) := by
          cases outcomes.getD pr.2 false <;> rfl
        rw [hδ]
        simp only at h2 ⊢
        omega

theorem poolInit_inv (outcomes : List Bool) : PoolInv outcomes poolInit := by
  refine ⟨Nat.zero_le _, ?_, ?_, ?_, ?_⟩ <;> simp [poolInit, List.range_zero]

theorem poolRun_inv {wCount : Nat} {outcomes : List Bool} :
    ∀ {events : List PoolEvent} {s s' : PoolState}, PoolInv outcomes s →
      poolRun wCount outcomes s events = some s' → PoolInv outcomes s' := by
  intro events
  induction events with
  | nil =>
    intro s s' h hr
    rw [show poolRun wCount outcomes s [] = some s from rfl, Option.some_inj] at hr
    subst hr
    exact h
  | cons e es ih =>
    intro s s' h hr
    simp only [poolRun] at hr
    cases hst : poolStep wCount outcomes s e with
    | none => rw [hst] at hr; exact absurd hr (by simp)
    | some s2 =>
      rw [hst] at hr
      exact ih (poolStep_inv h hst) hr

theorem pool_terminal {wCount : Nat} {outcomes : List Bool} {s : PoolState}
    (hW : 1 ≤ wCount) (hinv : PoolInv outcomes s)
    (hterm : ∀ e, poolStep wCount outcomes s e = none) :
    s.running = [] ∧ s.idx = outcomes.length := by
  have hrun : s.running = [] := by
    cases hr : s.running with
    | nil => rfl
    | cons p tl =>
      have hcon := hterm (PoolEvent.finish p.1)
      simp only [poolStep, hr] at hcon
      rw [List.find?_cons_of_pos _ (by simp)] at hcon
      exact absurd hcon (by simp)
  refine ⟨hrun, ?_⟩
  by_contra hne
  have hlt : s.idx < outcomes.length := lt_of_le_of_ne hinv.1 hne
  have hcon := hterm (PoolEvent.claim 0)
  simp only [poolStep] at hcon
  rw [if_pos ⟨hW, by rw [hrun]; rfl, hlt⟩] at hcon
  exact absurd hcon (by simp)

theorem countP_range_getD (l : List Bool) :
    (List.range l.length).countP (fun i => l.getD i false) = l.count true := by
  induction l with
  | nil => simp
  | cons b t ih =>
    rw [List.length_cons, List.range_succ_eq_map, List.countP_cons, List.countP_map]
    have hc : ((List.range t.length).countP ((fun i => (b :: t).getD i false) ∘ Nat.succ)) =
        (List.range t.length).countP (fun i => t.getD i false) :=
      List.countP_congr (fun x _ => by simp [Function.comp, List.getD_cons_succ])
    rw [hc, ih, List.count_cons]
    simp [List.getD_cons_zero]

theorem countP_range_getD_not (l : List Bool) :
    (List.range l.length).countP (fun i => ! l.getD i false) = l.count false := by
  induction l with
  | nil => simp
  | cons b t ih =>
    rw [List.length_cons, List.range_succ_eq_map, List.countP_cons, List.countP_map]
    have hc : ((List.range t.length).countP ((fun i => ! (b :: t).getD i false) ∘ Nat.succ)) =
        (List.range t.length).countP (fun i => ! t.getD i false) :=
      List.countP_congr (fun x _ => by simp [Function.comp, List.getD_cons_succ])
    rw [hc, ih, List.count_cons]
    cases b <;> simp [List.getD_cons_zero]

theorem count_true_add_count_false (l : List Bool) :
    l.count true + l.count false = l.length := by
  induction l with
  | nil => simp
  | cons b t ih =>
    cases b <;> simp [List.count_cons] <;> omega

/-- Claim C7: for every item outcome list and every pool of at least one worker,
any completed run of the `parallelMap` worker pool (a maximal event
sequence) claims every item exactly once, in order, and ends with
`completed` equal to the number of successful items and `failed` equal to
the number of failing items, with `completed + failed` equal to the item
count: a failed item never prevents the remaining items from being
attempted. -/
theorem parallelMap_tally (outcomes : List Bool) (wCount : Nat)
    (events : List PoolEvent) (s' : PoolState) (hW : 1 ≤ wCount)
    (hrun : poolRun wCount outcomes poolInit events = some s')
    (hterm : ∀ e, poolStep wCount outcomes s' e = none) :
    s'.claimedLog = List.range outcomes.length ∧
    s'.completed = outcomes.count true ∧
    s'.failed = outcomes.count false ∧
    s'.completed + s'.failed = outcomes.length := by
  have hinv : PoolInv outcomes s' := poolRun_inv (poolInit_inv outcomes) hrun
  obtain ⟨hrunning, hidx⟩ := pool_terminal hW hinv hterm
  obtain ⟨_, hlog, _, hcomp, hfail⟩ := hinv
  rw [hrunning] at hcomp hfail
  simp only [List.map_nil, List.countP_nil, Nat.add_zero] at hcomp hfail
  rw [hidx] at hcomp hfail hlog
  have e1 : s'.completed = outcomes.count true := hcomp.trans (countP_range_getD outcomes)
  have e2 : s'.failed = outcomes.count false := hfail.trans (countP_range_getD_not outcomes)
  refine ⟨hlog, e1, e2, ?_⟩
  rw [e1, e2]
  exact count_true_add_count_false outcomes

/-- Witness for C7: the spec's concrete scenario of 10 items with a pool
of 3 workers where items 4 and 7 (1-based) fail.  The event trace below is
one interleaving of the three workers; the run reports completed = 8,
failed = 2, and every item 0..9 was claimed exactly once, in order. -/
theorem parallelMap_tally_witness :
    poolRun 3 [true, true, true, false, true, true, false, true, true, true] poolInit
        [PoolEvent.claim 0, PoolEvent.claim 1, PoolEvent.claim 2, PoolEvent.finish 0,
         PoolEvent.claim 0, PoolEvent.finish 1, PoolEvent.claim 1, PoolEvent.finish 2,
         PoolEvent.claim 2, PoolEvent.finish 0, PoolEvent.claim 0, PoolEvent.finish 1,
         PoolEvent.claim 1, PoolEvent.finish 2, PoolEvent.claim 2, PoolEvent.finish 0,
         PoolEvent.claim 0, PoolEvent.finish 1, PoolEvent.finish 2, PoolEvent.finish 0] =
      some { idx := 10, completed := 8, failed := 2, running := [],
             claimedLog := [0, 1, 2, 3, 4, 5, 6, 7, 8, 9] } ∧
    ({ idx := 10, completed := 8, failed := 2, running := [],
       claimedLog := [0, 1, 2, 3, 4, 5, 6, 7, 8, 9] } : PoolState).completed = 8 ∧
    ({ idx := 10, completed := 8, failed := 2, running := [],
       claimedLog := [0, 1, 2, 3, 4, 5, 6, 7, 8, 9] } : PoolState).failed = 2 ∧
    ({ idx := 10, completed := 8, failed := 2, running := [],
       claimedLog := [0, 1, 2, 3, 4, 5, 6, 7, 8, 9] } : PoolState).claimedLog =
      List.range 10 := by
  have h := parallelMap_tally
    [true, true, true, false, true, true, false, true, true, true] 3
    [PoolEvent.claim 0, PoolEvent.claim 1, PoolEvent.claim 2, PoolEvent.finish 0,
     PoolEvent.claim 0, PoolEvent.finish 1, PoolEvent.claim 1, PoolEvent.finish 2,
     PoolEvent.claim 2, PoolEvent.finish 0, PoolEvent.claim 0, PoolEvent.finish 1,
     PoolEvent.claim 1, PoolEvent.finish 2, PoolEvent.claim 2, PoolEvent.finish 0,
     PoolEvent.claim 0, PoolEvent.finish 1, PoolEvent.finish 2, PoolEvent.finish 0]
    { idx := 10, completed := 8, failed := 2, running := [],
      claimedLog := [0, 1, 2, 3, 4, 5, 6, 7, 8, 9] }
    (by decide) (by decide)
    (by
      intro e
      cases e with
      | claim w => simp [poolStep]
      | finish w => simp [poolStep])
  exact ⟨by decide, h.2.1.trans (by decide), h.2.2.1.trans (by decide),
    h.1.trans (by decide)⟩

/- ── Publisher flag logic (C10) ─────────────────────────────────────── -/

/-- Claim C10: invoking the publisher with only `--lib <name>` (no `--manifest`
and no `--svgs` flag anywhere in the argument list) disables both phases:
neither the manifest upload nor the SVG upload runs, and no upload at all
is attempted, because each phase is enabled only by an empty argument list
or its own flag. -/
theorem libFlag_alone_no_uploads (name : String) (svgKeys : List String)
    (h1 : name ≠ "--manifest") (h2 : name ≠ "--svgs") :
    uploadManifestFlag ["--lib", name] = false ∧
    uploadSvgsFlag ["--lib", name] = false ∧
    mainUploads ["--lib", name] svgKeys = [] := by
  have hm : uploadManifestFlag ["--lib", name] = false := by
    simp [uploadManifestFlag, Ne.symm h1]
  have hs : uploadSvgsFlag ["--lib", name] = false := by
    simp [uploadSvgsFlag, Ne.symm h2]
  exact ⟨hm, hs, by simp [mainUploads, hm, hs]⟩

/-- Witness for C10 at the concrete invocation `--lib tabler`. -/
theorem libFlag_alone_no_uploads_witness :
    uploadManifestFlag ["--lib", "tabler"] = false ∧
    uploadSvgsFlag ["--lib", "tabler"] = false ∧
    mainUploads ["--lib", "tabler"] ["tabler/outline/activity.svg"] = [] :=
  libFlag_alone_no_uploads "tabler" ["tabler/outline/activity.svg"]
    (by decide) (by decide)

/- ── cleanSvg lemmas (C6) ───────────────────────────────────────────── -/

theorem dropNl_length_le (s : List Char) : (dropNl s).length ≤ s.length := by
  cases s with
  | nil => simp [dropNl]
  | cons c r =>
    simp only [dropNl]
    split <;> simp

theorem skipToClose_length : ∀ {s r : List Char}, skipToClose s = some r →
    r.length ≤ s.length := by
  intro s
  induction s with
  | nil => intro r h; simp [skipToClose] at h
  | cons c rest ih =>
    intro r h
    simp only [skipToClose] at h
    split at h
    · rw [Option.some_inj] at h
      subst h
      calc (dropNl ((c :: rest).drop 3)).length
          ≤ ((c :: rest).drop 3).length := dropNl_length_le _
        _ ≤ (c :: rest).length := by simp [List.length_drop]; omega
    · exact Nat.le_trans (ih h) (by simp)

theorem removeCommentsAux_fuel : ∀ (f1 f2 : Nat) (s : List Char),
    s.length ≤ f1 → s.length ≤ f2 → removeCommentsAux f1 s = removeCommentsAux f2 s := by
  intro f1
  induction f1 with
  | zero =>
    intro f2 s h1 _
    have hs : s = [] := List.length_eq_zero.mp (Nat.le_zero.mp h1)
    subst hs
    cases f2 <;> rfl
  | succ f1 ih =>
    intro f2 s h1 h2
    cases s with
    | nil => cases f2 <;> rfl
    | cons c rest =>
      cases f2 with
      | zero => simp at h2
      | succ f2 =>
        have hb1 : rest.length ≤ f1 := by simp [List.length_cons] at h1; omega
        have hb2 : rest.length ≤ f2 := by simp [List.length_cons] at h2; omega
        simp only [removeCommentsAux]
        split
        · cases hsk : skipToClose ((c :: rest).drop 4) with
          | some r2 =>
            simp only [hsk]
            have hr2 : r2.length ≤ rest.length := by
              have hr := skipToClose_length hsk
              simp [List.length_drop] at hr
              omega
            exact ih f2 r2 (by omega) (by omega)
          | none =>
            simp only [hsk]
            exact congrArg (List.cons c) (ih f2 rest hb1 hb2)
        · exact congrArg (List.cons c) (ih f2 rest hb1 hb2)

theorem removeComments_cons (c : Char) (rest : List Char) :
    removeComments (c :: rest) =
      if openerL.isPrefixOf (c :: rest) then
        match skipToClose ((c :: rest).drop 4) with
        | some r2 => removeComments r2
        | none => c :: removeComments rest
      else c :: removeComments rest := by
  show removeCommentsAux (c :: rest).length (c :: rest) = _
  rw [show (c :: rest).length = rest.length + 1 from rfl]
  simp only [removeCommentsAux]
  split
  · cases hsk : skipToClose ((c :: rest).drop 4) with
    | some r2 =>
      simp only [hsk]
      have hr2 : r2.length ≤ rest.length := by
        have hr := skipToClose_length hsk
        simp [List.length_drop] at hr
        omega
      exact removeCommentsAux_fuel rest.length r2.length r2 hr2 (Nat.le_refl _)
    | none => simp only [hsk]; rfl
  · rfl

/-- Scanning a text fragment with no `<!` keeps it verbatim when the
remainder is empty or starts with `<`. -/
theorem removeComments_text (t r : List Char)
    (ht : isInfixL ['<', '!'] t = false)
    (hr : r = [] ∨ ∃ r2, r = '<' :: r2) :
    removeComments (t ++ r) = t ++ removeComments r := by
  induction t with
  | nil => simp
  | cons c t' ih =>
    have ht' : isInfixL ['<', '!'] t' = false := (isInfixL_cons_false ht).2
    have hpre : openerL.isPrefixOf (c :: (t' ++ r)) = false := by
      by_contra hcon
      rw [Bool.not_eq_false] at hcon
      obtain ⟨tt, htt⟩ := isPrefixOf_iff_exists.mp hcon
      rw [show openerL ++ tt = '<' :: '!' :: '-' :: '-' :: tt from rfl] at htt
      injection htt with hc hrest
      cases t' with
      | nil =>
        simp only [List.nil_append] at hrest
        rcases hr with rfl | ⟨r2, rfl⟩
        · exact absurd hrest (by simp)
        · injection hrest with hx _
          exact absurd hx (by decide)
      | cons c2 t'' =>
        injection hrest with hc2 _
        subst hc
        subst hc2
        have hinf : isInfixL ['<', '!'] ('<' :: '!' :: t'') = true :=
          isInfixL_iff_exists.mpr ⟨[], t'', rfl⟩
        rw [hinf] at ht
        exact Bool.true_eq_false.mp ht
    rw [List.cons_append, removeComments_cons,
      if_neg (fun hcon => Bool.true_eq_false.mp (hcon.symm.trans hpre))]
    rw [ih ht', List.cons_append]

/-- The lazy close scan consumes exactly the comment body, the closer, and
one optional newline, when the body contains no `-->`. -/
theorem skipToClose_exact (b rest : List Char) (hb : isInfixL closerL b = false) :
    skipToClose (b ++ (closerL ++ rest)) = some (dropNl rest) := by
  induction b with
  | nil =>
    show skipToClose ('-' :: ('-' :: '>' :: rest)) = some (dropNl rest)
    rw [skipToClose]
    rw [if_pos (show closerL.isPrefixOf ('-' :: '-' :: '>' :: rest) = true
      from isPrefixOf_iff_exists.mpr ⟨rest, rfl⟩)]
    rfl
  | cons c b' ih =>
    have hb' : isInfixL closerL b' = false := (isInfixL_cons_false hb).2
    have hpre : closerL.isPrefixOf (c :: (b' ++ (closerL ++ rest))) = false := by
      by_contra hcon
      rw [Bool.not_eq_false] at hcon
      obtain ⟨tt, htt⟩ := isPrefixOf_iff_exists.mp hcon
      rw [show closerL ++ tt = '-' :: '-' :: '>' :: tt from rfl] at htt
      injection htt with hc hrest
      cases b' with
      | nil => simp [closerL] at hrest
      | cons c2 b'' =>
        injection hrest with hc2 hrest2
        cases b'' with
        | nil => simp [closerL] at hrest2
        | cons c3 b''' =>
          injection hrest2 with hc3 _
          subst hc
          subst hc2
          subst hc3
          have hinf : isInfixL closerL ('-' :: '-' :: '>' :: b''') = true :=
            isInfixL_iff_exists.mpr ⟨[], b''', rfl⟩
          rw [hinf] at hb
          exact Bool.true_eq_false.mp hb
    rw [List.cons_append]
    simp only [skipToClose]
    rw [if_neg (fun hcon => Bool.true_eq_false.mp (hcon.symm.trans hpre))]
    exact ih hb'

/-- One complete comment (with body free of `-->`) is removed wholesale,
together with one optional trailing newline. -/
theorem removeComments_comment (b rest : List Char) (hb : isInfixL closerL b = false) :
    removeComments (openerL ++ (b ++ (closerL ++ rest))) = removeComments (dropNl rest) := by
  rw [show openerL ++ (b ++ (closerL ++ rest)) =
      '<' :: ('!' :: '-' :: '-' :: (b ++ (closerL ++ rest))) from rfl]
  rw [removeComments_cons]
  rw [if_pos (show openerL.isPrefixOf
      ('<' :: ('!' :: '-' :: '-' :: (b ++ (closerL ++ rest)))) = true
    from isPrefixOf_iff_exists.mpr ⟨b ++ (closerL ++ rest), rfl⟩)]
  rw [show List.drop 4 ('<' :: ('!' :: '-' :: '-' :: (b ++ (closerL ++ rest)))) =
      b ++ (closerL ++ rest) from rfl]
  rw [skipToClose_exact b rest hb]

theorem dropNl_assemble (t : List Char) (segs : List (List Char × List Char)) :
    dropNl (assembleComments t segs) = assembleComments (dropNl t) segs := by
  cases segs with
  | nil => rfl
  | cons seg rest =>
    obtain ⟨b, t2⟩ := seg
    cases t with
    | nil => simp [assembleComments, dropNl, openerL]
    | cons c t' =>
      by_cases hc : c = '\n' <;>
        simp [assembleComments, dropNl, hc, List.cons_append]

theorem dropNl_infix_false {pat t : List Char} (h : isInfixL pat t = false) :
    isInfixL pat (dropNl t) = false := by
  cases t with
  | nil => simpa [dropNl] using h
  | cons c t' =>
    simp only [dropNl]
    split
    · exact (isInfixL_cons_false h).2
    · exact h

theorem dropNl_getLast {t : List Char} (h : t.getLast? ≠ some '<') :
    (dropNl t).getLast? ≠ some '<' := by
  cases t with
  | nil => simp [dropNl]
  | cons c t' =>
    simp only [dropNl]
    split
    · cases t' with
      | nil => simp
      | cons c2 t'' => rw [List.getLast?_cons_cons] at h; exact h
    · exact h

/-- The global comment-removal scan over a well-formed interleaving of
texts and comments keeps exactly the texts (each with one optional leading
newline eaten). -/
theorem removeComments_assemble : ∀ (segs : List (List Char × List Char)) (t0 : List Char),
    isInfixL ['<', '!'] t0 = false →
    (∀ p ∈ segs, isInfixL closerL p.1 = false ∧ isInfixL ['<', '!'] p.2 = false) →
    removeComments (assembleComments t0 segs) =
      t0 ++ segs.flatMap (fun p => dropNl p.2) := by
  intro segs
  induction segs with
  | nil =>
    intro t0 ht0 _
    have h := removeComments_text t0 [] ht0 (Or.inl rfl)
    rw [List.append_nil, show removeComments ([] : List Char) = [] from rfl,
      List.append_nil] at h
    simpa [assembleComments] using h
  | cons seg rest ih =>
    intro t0 ht0 hsegs
    obtain ⟨b, t⟩ := seg
    show removeComments
        (t0 ++ (openerL ++ (b ++ (closerL ++ assembleComments t rest)))) = _
    rw [show openerL ++ (b ++ (closerL ++ assembleComments t rest)) =
        '<' :: ('!' :: '-' :: '-' :: (b ++ (closerL ++ assembleComments t rest))) from rfl]
    rw [removeComments_text t0 _ ht0 (Or.inr ⟨_, rfl⟩)]
    rw [show ('<' : Char) :: ('!' :: '-' :: '-' :: (b ++ (closerL ++ assembleComments t rest)))
        = openerL ++ (b ++ (closerL ++ assembleComments t rest)) from rfl]
    rw [removeComments_comment b _ (hsegs (b, t) (by simp)).1]
    rw [dropNl_assemble]
    have ht1 : isInfixL ['<', '!'] (dropNl t) = false :=
      dropNl_infix_false (hsegs (b, t) (by simp)).2
    have hs1 : ∀ p ∈ rest, isInfixL closerL p.1 = false ∧ isInfixL ['<', '!'] p.2 = false :=
      fun p hp => hsegs p (List.mem_cons_of_mem _ hp)
    rw [ih (dropNl t) ht1 hs1]
    simp [List.flatMap_cons]

/-- A two-character pattern does not appear in an append of two clean
pieces when the first piece does not end with the pattern's first
character. -/
theorem pat2_append_false (x y : Char) (p q : List Char)
    (hp : isInfixL [x, y] p = false) (hq : isInfixL [x, y] q = false)
    (hlast : p.getLast? ≠ some x) :
    isInfixL [x, y] (p ++ q) = false := by
  induction p with
  | nil => simpa using hq
  | cons c p' ih =>
    obtain ⟨hp1, hp2⟩ := isInfixL_cons_false hp
    have hlast' : p'.getLast? ≠ some x := by
      cases p' with
      | nil => simp
      | cons c2 p'' => rw [List.getLast?_cons_cons] at hlast; exact hlast
    rw [List.cons_append]
    show (([x, y].isPrefixOf (c :: (p' ++ q))) || isInfixL [x, y] (p' ++ q)) = false
    rw [Bool.or_eq_false_iff]
    refine ⟨?_, ih hp2 hlast'⟩
    by_contra hcon
    rw [Bool.not_eq_false] at hcon
    obtain ⟨tt, htt⟩ := isPrefixOf_iff_exists.mp hcon
    rw [show [x, y] ++ tt = x :: y :: tt from rfl] at htt
    injection htt with hc hrest
    cases p' with
    | nil =>
      subst hc
      rw [List.getLast?_singleton] at hlast
      exact hlast rfl
    | cons c2 p'' =>
      injection hrest with hc2 _
      subst hc
      subst hc2
      have : [x, y].isPrefixOf (x :: y :: p'') = true :=
        isPrefixOf_iff_exists.mpr ⟨p'', rfl⟩
      rw [this] at hp1
      exact Bool.true_eq_false.mp hp1

theorem flatten_pat2_false (x y : Char) :
    ∀ pieces : List (List Char),
      (∀ p ∈ pieces, isInfixL [x, y] p = false ∧ p.getLast? ≠ some x) →
      isInfixL [x, y] pieces.flatten = false := by
  intro pieces
  induction pieces with
  | nil => intro _; rfl
  | cons p rest ih =>
    intro h
    rw [List.flatten_cons]
    exact pat2_append_false x y p rest.flatten (h p (by simp)).1
      (ih (fun q hq => h q (by simp [hq]))) (h p (by simp)).2

/-- The trim step returns a contiguous slice of its input. -/
theorem jsTrim_slice (s : List Char) : ∃ u v, u ++ (jsTrim s ++ v) = s := by
  obtain ⟨v, hv⟩ := List.rdropWhile_prefix Char.isWhitespace (s.dropWhile Char.isWhitespace)
  obtain ⟨u, hu⟩ := List.dropWhile_suffix (l := s) Char.isWhitespace
  refine ⟨u, v, ?_⟩
  show u ++ (List.rdropWhile Char.isWhitespace (s.dropWhile Char.isWhitespace) ++ v) = s
  rw [hv, hu]

/-- Claim C6 counterexample: `cleanSvg` does not always remove every complete
comment.  Deleting the two matched comments of this input glues the
leftover fragments `<!-`, `- hello ` and `-->` into the complete comment
`<!-- hello -->`, which survives in the output. -/
theorem cleanSvg_counterexample :
    ContainsFullComment (cleanSvg "<!-<!-- c -->- hello <!-- d -->-->") := by
  refine ⟨[], (" hello ").data, [], ?_⟩
  decide

/-- Claim C6 (amended): for every input that is a well-formed interleaving of
texts and complete comments — each comment body free of `-->`, each text
free of the fragment `<!` and not ending in a dangling `<` — the cleaned
output contains no complete comment `<!-- ... -->`.  (Unrestricted inputs
can glue leftover fragments into a new comment, see the counterexample.) -/
theorem cleanSvg_comment_free (t0 : List Char) (segs : List (List Char × List Char))
    (ht0 : goodText t0)
    (hsegs : ∀ p ∈ segs, isInfixL closerL p.1 = false ∧ goodText p.2) :
    ¬ ContainsFullComment (cleanSvg ⟨assembleComments t0 segs⟩) := by
  intro hcon
  obtain ⟨u, v, w, hdata⟩ := hcon
  rw [show (cleanSvg ⟨assembleComments t0 segs⟩).data
      = jsTrim (removeComments (assembleComments t0 segs)) from rfl] at hdata
  rw [removeComments_assemble segs t0 ht0.1
    (fun p hp => ⟨(hsegs p hp).1, (hsegs p hp).2.1⟩)] at hdata
  have hpieces : ∀ p ∈ t0 :: segs.map (fun p => dropNl p.2),
      isInfixL ['<', '!'] p = false ∧ p.getLast? ≠ some '<' := by
    intro p hp
    rcases List.mem_cons.mp hp with rfl | hp2
    · exact ⟨ht0.1, ht0.2⟩
    · rw [List.mem_map] at hp2
      obtain ⟨q, hq, rfl⟩ := hp2
      exact ⟨dropNl_infix_false (hsegs q hq).2.1, dropNl_getLast (hsegs q hq).2.2⟩
  have hout := flatten_pat2_false '<' '!' _ hpieces
  rw [List.flatten_cons, ← List.flatMap_def] at hout
  obtain ⟨a, b2, hab⟩ := jsTrim_slice (t0 ++ segs.flatMap (fun p => dropNl p.2))
  have hinf : isInfixL ['<', '!'] (t0 ++ segs.flatMap (fun p => dropNl p.2)) = true := by
    apply isInfixL_iff_exists.mpr
    refine ⟨a ++ u, '-' :: '-' :: (v ++ (closerL ++ (w ++ b2))), ?_⟩
    rw [← hab, hdata]
    simp [openerL, closerL, List.append_assoc]
  rw [hinf] at hout
  exact Bool.true_eq_false.mp hout

/-- Witness for C6's amended statement on a small well-formed SVG with one
comment. -/
theorem cleanSvg_comment_free_witness :
    ¬ ContainsFullComment (cleanSvg
      ⟨assembleComments ("<svg>\n").data [((" header ").data, ("<path/>\n</svg>").data)]⟩) :=
  cleanSvg_comment_free ("<svg>\n").data [((" header ").data, ("<path/>\n</svg>").data)]
    (by constructor <;> decide)
    (by
      intro p hp
      rw [List.mem_singleton] at hp
      subst hp
      refine ⟨by decide, by decide, by decide⟩)

end ElementalSvg
